import Mathlib

/-!
Verification of the `sleepy` REST dispatch shim (`core.go`, package `sleepy`).

The development shallowly embeds the dispatch and registration logic of
`core.go`:

* `Json` / `GoValue` model the universe of Go values a handler returns as its
  response body; `marshalVal` models `encoding/json.MarshalIndent(data, "", "  ")`
  (two-space indentation, `\u00XX` escapes for control characters and the
  HTML-escaped characters `<`, `>`, `&`, named escapes for quote, backslash,
  newline, carriage return and tab).
* `parseVal`/`parseJson` is a JSON reader used to state the "parsing the body
  back yields the handler's value" property; it is fuel-indexed and total.
* `Resource` models the per-verb capability interfaces (`GetSupported`, ...)
  as optional entry-point slots; `resolveHandler` is the `switch request.Method`
  block of `requestHandler`.
* `requestHandler` models the request dispatcher: the `ParseForm` check, verb
  resolution, handler invocation, `MarshalIndent`, header merge and the writes
  on the `http.ResponseWriter`, observed as an event trace, together with the
  `logRequest` lines.
* `APIState` with `muxOp`/`setMux`/`addResource`/`addResourceWithWrapper`/`start`
  models the `DefaultAPI` configuration state machine (`mux`, `muxInitialized`,
  the bound router's route table, and the listen call made by `Start`).
-/

namespace Sleepy

/-- JSON values a Go handler can return: `null`, booleans, (integer) numbers,
strings, arrays, and objects. Objects are ordered association lists: Go's
`encoding/json` renders struct fields in declaration order and map keys in
sorted order, so the serialized key order is exactly the list order here. -/
inductive Json where
  | null
  | bool (b : Bool)
  | num (n : Int)
  | str (s : String)
  | arr (xs : List Json)
  | obj (fs : List (String × Json))

/-- Decimal digit character for a digit value `0 ≤ d ≤ 9`. -/
def digitChar (d : Nat) : Char :=
  match d with
  | 0 => '0' | 1 => '1' | 2 => '2' | 3 => '3' | 4 => '4'
  | 5 => '5' | 6 => '6' | 7 => '7' | 8 => '8' | _ => '9'

/-- Lower-case hexadecimal digit character for `0 ≤ d ≤ 15`, as emitted by
Go's `encoding/json` in `\u00XX` escapes. -/
def hexDigitChar (d : Nat) : Char :=
  match d with
  | 0 => '0' | 1 => '1' | 2 => '2' | 3 => '3' | 4 => '4'
  | 5 => '5' | 6 => '6' | 7 => '7' | 8 => '8' | 9 => '9'
  | 10 => 'a' | 11 => 'b' | 12 => 'c' | 13 => 'd' | 14 => 'e' | _ => 'f'

/-- Big-endian decimal digits of `n`, with fuel (`fuel > n` suffices). -/
def natDigitsAux : Nat → Nat → List Char
  | 0, _ => []
  | _+1, 0 => []
  | f+1, n => natDigitsAux f (n / 10) ++ [digitChar (n % 10)]

/-- Decimal representation of a natural number, as Go prints integers. -/
def natRepr (n : Nat) : List Char :=
  if n = 0 then ['0'] else natDigitsAux (n + 1) n

/-- Decimal representation of a Go integer (minus sign for negatives). -/
def intRepr (n : Int) : List Char :=
  if n < 0 then '-' :: natRepr n.natAbs else natRepr n.natAbs

/-- Escaping of one character inside a JSON string literal, following Go's
`encoding/json` string encoder: quote, backslash, newline, carriage return and
tab get two-character escapes; other control characters and the HTML-significant
characters `<`, `>`, `&` are emitted as `\u00XX`; everything else stands for
itself. -/
def escapeChar (c : Char) : List Char :=
  if c = '"' then ['\\', '"']
  else if c = '\\' then ['\\', '\\']
  else if c = '\n' then ['\\', 'n']
  else if c = '\r' then ['\\', 'r']
  else if c = '\t' then ['\\', 't']
  else if c.toNat < 32 ∨ c = '<' ∨ c = '>' ∨ c = '&' then
    ['\\', 'u', '0', '0', hexDigitChar (c.toNat / 16), hexDigitChar (c.toNat % 16)]
  else [c]

/-- Escaped body of a JSON string literal. -/
def escapeList (cs : List Char) : List Char :=
  match cs with
  | [] => []
  | c :: rest => escapeChar c ++ escapeList rest

/-- Quoted JSON string literal for `s`. -/
def quoteString (s : String) : List Char :=
  '"' :: escapeList s.data ++ ['"']

/-- Indentation prefix at nesting depth `d` for `MarshalIndent(data, "", "  ")`:
two spaces per level. -/
def ind (d : Nat) : List Char := List.replicate (2 * d) ' '

mutual

/-- Serialization of a JSON value at nesting depth `d`, following the exact
text `encoding/json.MarshalIndent(v, "", "  ")` produces: empty arrays and
objects are rendered inline, non-empty ones open with a newline, indent every
element by one more level, and close on a fresh line at the current level. -/
def marshalVal : Json → Nat → List Char
  | .null, _ => ['n', 'u', 'l', 'l']
  | .bool b, _ => if b then ['t', 'r', 'u', 'e'] else ['f', 'a', 'l', 's', 'e']
  | .num n, _ => intRepr n
  | .str s, _ => quoteString s
  | .arr [], _ => ['[', ']']
  | .arr (x :: xs), d =>
      '[' :: '\n' :: marshalItems (x :: xs) (d + 1) ++ '\n' :: ind d ++ [']']
  | .obj [], _ => ['\x7b', '\x7d']
  | .obj (f :: fs), d =>
      '\x7b' :: '\n' :: marshalFields (f :: fs) (d + 1) ++ '\n' :: ind d ++ ['\x7d']

/-- Serialization of the comma-separated, indented element list of a non-empty
JSON array. -/
def marshalItems : List Json → Nat → List Char
  | [], _ => []
  | [x], d => ind d ++ marshalVal x d
  | x :: y :: ys, d =>
      ind d ++ marshalVal x d ++ ',' :: '\n' :: marshalItems (y :: ys) d

/-- Serialization of the comma-separated, indented `"key": value` list of a
non-empty JSON object. -/
def marshalFields : List (String × Json) → Nat → List Char
  | [], _ => []
  | [(k, v)], d => ind d ++ quoteString k ++ ':' :: ' ' :: marshalVal v d
  | (k, v) :: g :: gs, d =>
      ind d ++ quoteString k ++ ':' :: ' ' :: marshalVal v d ++
        ',' :: '\n' :: marshalFields (g :: gs) d

end

/-- Top-level serialized text of a JSON value: `MarshalIndent(v, "", "  ")`. -/
def marshalIndentJson (j : Json) : String := String.mk (marshalVal j 0)

/-- Universe of Go `interface{}` values a handler returns as a response body:
either a JSON-serializable value, or a value `encoding/json` rejects (channel,
function, complex number, cyclic structure, ...), tagged with the description
that appears in the marshaller's error. -/
inductive GoValue where
  | val (j : Json)
  | unsupported (description : String)

/-- Model of `json.MarshalIndent(data, "", "  ")` on the Go value universe:
serializable values yield their indented text, unsupported values yield the
library's error. -/
def goMarshalIndent : GoValue → Except String String
  | .val j => .ok (marshalIndentJson j)
  | .unsupported d => .error ("json: unsupported type: " ++ d)

/-- Whitespace characters a JSON reader skips between tokens. -/
def isWs (c : Char) : Bool :=
  c = ' ' ∨ c = '\n' ∨ c = '\t' ∨ c = '\r'

/-- Consuming of leading JSON whitespace. -/
def skipWs (l : List Char) : List Char := l.dropWhile isWs

/-- Value of a hexadecimal digit character, `none` for non-hex characters. -/
def hexVal (c : Char) : Option Nat :=
  if c = '0' then some 0 else if c = '1' then some 1
  else if c = '2' then some 2 else if c = '3' then some 3
  else if c = '4' then some 4 else if c = '5' then some 5
  else if c = '6' then some 6 else if c = '7' then some 7
  else if c = '8' then some 8 else if c = '9' then some 9
  else if c = 'a' then some 10 else if c = 'b' then some 11
  else if c = 'c' then some 12 else if c = 'd' then some 13
  else if c = 'e' then some 14 else if c = 'f' then some 15
  else if c = 'A' then some 10 else if c = 'B' then some 11
  else if c = 'C' then some 12 else if c = 'D' then some 13
  else if c = 'E' then some 14 else if c = 'F' then some 15
  else none

/-- Unescaped value of a single-character JSON escape `\c`. -/
def unescapeChar (c : Char) : Option Char :=
  if c = '"' then some '"'
  else if c = '\\' then some '\\'
  else if c = '/' then some '/'
  else if c = 'n' then some '\n'
  else if c = 'r' then some '\r'
  else if c = 't' then some '\t'
  else none

/-- Reader for the body of a JSON string literal (after the opening quote),
returning the decoded characters and the input after the closing quote. The
fuel argument only needs to exceed the input length. -/
def parseStrAux : Nat → List Char → Option (List Char × List Char)
  | 0, _ => none
  | _+1, [] => none
  | fuel+1, c :: rest =>
    if c = '"' then some ([], rest)
    else if c = '\\' then
      match rest with
      | [] => none
      | e :: rest2 =>
        if e = 'u' then
          match rest2 with
          | h1 :: h2 :: h3 :: h4 :: rest3 =>
            match hexVal h1, hexVal h2, hexVal h3, hexVal h4 with
            | some a, some b, some c2, some d2 =>
              (parseStrAux fuel rest3).map
                (fun p => (Char.ofNat (4096 * a + 256 * b + 16 * c2 + d2) :: p.1, p.2))
            | _, _, _, _ => none
          | _ => none
        else
          match unescapeChar e with
          | some u => (parseStrAux fuel rest2).map (fun p => (u :: p.1, p.2))
          | none => none
    else (parseStrAux fuel rest).map (fun p => (c :: p.1, p.2))

/-- Digit-character test for the number reader. -/
def isDigitChar (c : Char) : Bool := 48 ≤ c.toNat ∧ c.toNat ≤ 57

/-- Numeric value of a big-endian list of decimal digit characters. -/
def charsToNat (cs : List Char) : Nat :=
  cs.foldl (fun acc c => 10 * acc + (c.toNat - 48)) 0

/-- Reader for a JSON integer number at the head of the input. -/
def parseNumber (l : List Char) : Option (Json × List Char) :=
  match l with
  | '-' :: rest =>
    let ds := rest.takeWhile isDigitChar
    if ds.isEmpty then none
    else some (.num (-(charsToNat ds : Int)), rest.dropWhile isDigitChar)
  | _ =>
    let ds := l.takeWhile isDigitChar
    if ds.isEmpty then none
    else some (.num (charsToNat ds), l.dropWhile isDigitChar)

mutual

/-- Fuel-indexed JSON value reader: skips leading whitespace, then dispatches
on the first character (literal, string, number, array or object). Returns the
parsed value and the unconsumed input. -/
def parseVal : Nat → List Char → Option (Json × List Char)
  | 0, _ => none
  | fuel+1, l =>
    match skipWs l with
    | [] => none
    | c :: rest =>
      if c = 'n' then
        match rest with
        | 'u' :: 'l' :: 'l' :: r => some (.null, r)
        | _ => none
      else if c = 't' then
        match rest with
        | 'r' :: 'u' :: 'e' :: r => some (.bool true, r)
        | _ => none
      else if c = 'f' then
        match rest with
        | 'a' :: 'l' :: 's' :: 'e' :: r => some (.bool false, r)
        | _ => none
      else if c = '"' then
        (parseStrAux (rest.length + 1) rest).map (fun p => (.str (String.mk p.1), p.2))
      else if c = '[' then
        match skipWs rest with
        | ']' :: r => some (.arr [], r)
        | l2 => (parseItems fuel l2).map (fun p => (.arr p.1, p.2))
      else if c = '\x7b' then
        match skipWs rest with
        | '\x7d' :: r => some (.obj [], r)
        | l2 => (parseFields fuel l2).map (fun p => (.obj p.1, p.2))
      else if c = '-' ∨ isDigitChar c then parseNumber (c :: rest)
      else none

/-- Fuel-indexed reader for the elements of a non-empty JSON array, consuming
the closing bracket. -/
def parseItems : Nat → List Char → Option (List Json × List Char)
  | 0, _ => none
  | fuel+1, l =>
    match parseVal fuel l with
    | none => none
    | some (v, r) =>
      match skipWs r with
      | ',' :: r2 =>
        (parseItems fuel r2).map (fun p => (v :: p.1, p.2))
      | ']' :: r2 => some ([v], r2)
      | _ => none

/-- Fuel-indexed reader for the fields of a non-empty JSON object, consuming
the closing brace. -/
def parseFields : Nat → List Char → Option (List (String × Json) × List Char)
  | 0, _ => none
  | fuel+1, l =>
    match skipWs l with
    | '"' :: r =>
      match parseStrAux (r.length + 1) r with
      | none => none
      | some (k, r2) =>
        match skipWs r2 with
        | ':' :: r3 =>
          match parseVal fuel r3 with
          | none => none
          | some (v, r4) =>
            match skipWs r4 with
            | ',' :: r5 =>
              (parseFields fuel r5).map (fun p => ((String.mk k, v) :: p.1, p.2))
            | '\x7d' :: r5 => some ([(String.mk k, v)], r5)
            | _ => none
        | _ => none
    | _ => none

end

/-- Parsing of a whole string as one JSON document: the value must be followed
by nothing but whitespace. -/
def parseJson (s : String) : Option Json :=
  match parseVal (s.data.length + 1) s.data with
  | some (j, r) => if (skipWs r).isEmpty then some j else none
  | none => none

/-- HTTP method constants of `core.go`. -/
def GET : String := "GET"

/-- POST HTTP method. -/
def POST : String := "POST"

/-- PUT HTTP method. -/
def PUT : String := "PUT"

/-- DELETE HTTP method. -/
def DELETE : String := "DELETE"

/-- HEAD HTTP method. -/
def HEAD : String := "HEAD"

/-- PATCH HTTP method. -/
def PATCH : String := "PATCH"

/-- Model of Go's `http.Header`: a finite map from canonical header names to
value lists, represented as an association list (Go map keys are unique; map
iteration order is determinized to list order, which no claim depends on). -/
abbrev Header := List (String × List String)

/-- Model of `httprouter.Params`: the path parameters extracted by the router. -/
abbrev Params := List (String × String)

/-- Inbound request as seen by `requestHandler`: the method string, the fields
`logRequest` reads (`RemoteAddr`, `URL.Path`, `URL.RawQuery`), the header map,
the raw body, and whether `request.ParseForm()` returns a non-nil error for it. -/
structure Request where
  method : String
  remoteAddr : String
  urlPath : String
  rawQuery : String
  header : Header
  body : String
  parseFormError : Bool

/-- Result tuple `(int, interface{}, http.Header)` returned by a handler's
entry point. -/
structure HandlerResult where
  code : Int
  data : GoValue
  header : Header

/-- Verb-specific entry point of a resource:
`func(*http.Request, http.Header, httprouter.Params) (int, interface{}, http.Header)`. -/
def EntryPoint := Request → Header → Params → HandlerResult

/-- Resource value as the dispatcher sees it: one optional entry-point slot per
capability interface (`GetSupported`, `PostSupported`, `PutSupported`,
`DeleteSupported`, `HeadSupported`, `PatchSupported`). A slot is `some` exactly
when the Go type assertion for that interface succeeds. -/
structure Resource where
  get : Option EntryPoint
  post : Option EntryPoint
  put : Option EntryPoint
  delete : Option EntryPoint
  head : Option EntryPoint
  patch : Option EntryPoint

/-- Entry-point resolution: the `switch request.Method` block of
`requestHandler`. A verb in the fixed set selects the matching slot (which may
itself be empty); any other method string leaves the handler nil. -/
def resolveHandler (r : Resource) (method : String) : Option EntryPoint :=
  if method = GET then r.get
  else if method = POST then r.post
  else if method = PUT then r.put
  else if method = DELETE then r.delete
  else if method = HEAD then r.head
  else if method = PATCH then r.patch
  else none

/-- Capability predicate: the resource implements the entry point for `method`.
Stated directly from the capability slots, independently of `resolveHandler`. -/
def supportsVerb (r : Resource) (method : String) : Bool :=
  (method == GET && r.get.isSome) || (method == POST && r.post.isSome) ||
  (method == PUT && r.put.isSome) || (method == DELETE && r.delete.isSome) ||
  (method == HEAD && r.head.isSome) || (method == PATCH && r.patch.isSome)

/-- The fixed verb set of `core.go`. -/
def fixedVerbs : List String := [GET, POST, PUT, DELETE, HEAD, PATCH]

/-- Observable actions performed on the `http.ResponseWriter`, in order:
`rw.Header().Add(name, value)`, `rw.WriteHeader(code)`, `rw.Write(content)`. -/
inductive RWEvent where
  | addHeader (name value : String)
  | writeHeader (code : Int)
  | write (content : String)

/-- Response body actually sent: the concatenation of all `Write` payloads in
the event trace. -/
def bodyOf : List RWEvent → String
  | [] => ""
  | .write s :: rest => s ++ bodyOf rest
  | _ :: rest => bodyOf rest

/-- Header-merge loop of `requestHandler`:
`for name, values := range header { for _, value := range values { rw.Header().Add(name, value) } }`. -/
def headerEvents : Header → List RWEvent
  | [] => []
  | (n, vs) :: rest => vs.map (RWEvent.addHeader n) ++ headerEvents rest

/-- Message of one request-log line as `DefaultAPI.logRequest` formats it and
`DefaultAPI.log` hands it to the logger:
`Println("sleepy:", fmt.Sprintf("[%v] %s %s%s %d, %s", RemoteAddr, Method, Path, RawQuery, code, msg))`. -/
def requestLine (req : Request) (code : Int) (msg : String) : String :=
  "sleepy: [" ++ req.remoteAddr ++ "] " ++ req.method ++ " " ++
    req.urlPath ++ req.rawQuery ++ " " ++ toString code ++ ", " ++ msg

/-- Model of `DefaultAPI.logRequest`: emits one line when a logger is
configured, nothing otherwise (`DefaultAPI.log` returns early on nil logger). -/
def logRequest (hasLogger : Bool) (req : Request) (code : Int) (msg : String) :
    List String :=
  if hasLogger then [requestLine req code msg] else []

/-- Observable outcome of one dispatched request: the response-writer event
trace, the emitted log lines, and whether a handler entry point was invoked. -/
structure DispatchResult where
  events : List RWEvent
  logs : List String
  invoked : Bool

/-- Model of the closure returned by `DefaultAPI.requestHandler(resource)`:
parse-form check (400 on failure), verb resolution (405 when no entry point),
handler invocation, `json.MarshalIndent(data, "", "  ")` (500 on failure), then
header merge, status write and body write. `hasLogger` is the `api.Logger != nil`
state of the receiver. -/
def requestHandler (hasLogger : Bool) (resource : Resource) (req : Request)
    (params : Params) : DispatchResult :=
  if req.parseFormError then
    { events := [.writeHeader 400]
      logs := logRequest hasLogger req 400 "request.ParseForm was nil"
      invoked := false }
  else
    match resolveHandler resource req.method with
    | none =>
      { events := [.writeHeader 405]
        logs := logRequest hasLogger req 405 "Handler was nil"
        invoked := false }
    | some handler =>
      let out := handler req req.header params
      let okLog := logRequest hasLogger req out.code "OK"
      match goMarshalIndent out.data with
      | .error e =>
        { events := [.writeHeader 500]
          logs := okLog ++ logRequest hasLogger req 500 ("err in json.MarshalIndent: " ++ e)
          invoked := true }
      | .ok content =>
        { events := headerEvents out.header ++ [.writeHeader out.code, .write content]
          logs := okLog
          invoked := true }

/-- Handler value stored in the router's route table: `base r` is the closure
`api.requestHandler(r)`; `wrapped h` marks one application of the caller's
wrapper function to `h` (the wrapper is opaque, only its application count is
observable at this level). -/
inductive RegHandler where
  | base (r : Resource)
  | wrapped (h : RegHandler)

/-- Number of wrapper applications around the stored base handler. -/
def wrapCount : RegHandler → Nat
  | .base _ => 0
  | .wrapped h => wrapCount h + 1

/-- One route of the bound router: an HTTP verb, a path pattern, and the stored
handler. -/
structure RouteEntry where
  verb : String
  path : String
  handler : RegHandler

/-- Configuration state of a `DefaultAPI` value together with the route table
of the router it is bound to: `logger` is whether `Logger` is non-nil, `mux` is
the identity of the `*httprouter.Router` the API points at, `muxInitialized` is
the binding flag, `routes` is the bound router's route table, and `nextRid`
allocates fresh router identities for `httprouter.New()`. -/
structure APIState where
  logger : Bool
  mux : Nat
  muxInitialized : Bool
  routes : List RouteEntry
  nextRid : Nat

/-- State produced by `NewAPI()` with no options: zero value of `DefaultAPI`. -/
def newAPI : APIState :=
  { logger := false, mux := 0, muxInitialized := false, routes := [], nextRid := 1 }

/-- Model of `DefaultAPI.Mux()`: returns the bound router unchanged when
initialized, otherwise allocates a fresh empty router, binds it and marks the
API initialized. -/
def muxOp (s : APIState) : Nat × APIState :=
  if s.muxInitialized then (s.mux, s)
  else (s.nextRid,
    { s with mux := s.nextRid, muxInitialized := true, routes := [],
             nextRid := s.nextRid + 1 })

/-- Model of `DefaultAPI.SetMux(mux)`: fails when a router is already bound,
otherwise installs the given router (identity and route table) and marks the
API initialized. -/
def setMux (s : APIState) (newMux : Nat) (newRoutes : List RouteEntry) :
    Except String Unit × APIState :=
  if s.muxInitialized then
    (.error "You cannot set a muxer when already initialized.", s)
  else (.ok (), { s with mux := newMux, muxInitialized := true, routes := newRoutes })

/-- Registration of one route: `api.Mux().VERB(path, handler)` — the `Mux()`
call binds a router first if none is bound yet. -/
def regRoute (s : APIState) (v : String) (p : String) (h : RegHandler) : APIState :=
  let s1 := (muxOp s).2
  { s1 with routes := s1.routes ++ [{ verb := v, path := p, handler := h }] }

/-- Per-path body of `AddResource`: one interface check per verb, in source
order, each successful check registering `api.requestHandler(resource)`. -/
def addResourcePath (s : APIState) (r : Resource) (p : String) : APIState :=
  let s := if r.get.isSome then regRoute s GET p (.base r) else s
  let s := if r.post.isSome then regRoute s POST p (.base r) else s
  let s := if r.put.isSome then regRoute s PUT p (.base r) else s
  let s := if r.delete.isSome then regRoute s DELETE p (.base r) else s
  let s := if r.head.isSome then regRoute s HEAD p (.base r) else s
  let s := if r.patch.isSome then regRoute s PATCH p (.base r) else s
  s

/-- Model of `DefaultAPI.AddResource(resource, paths...)`. -/
def addResource (s : APIState) (r : Resource) (paths : List String) : APIState :=
  paths.foldl (fun s p => addResourcePath s r p) s

/-- Per-path body of `AddResourceWithWrapper`: like `addResourcePath` but each
registered handler is `wrapper(api.requestHandler(resource))`, i.e. exactly one
wrapper application performed at registration time. -/
def addResourceWithWrapperPath (s : APIState) (r : Resource) (p : String) : APIState :=
  let s := if r.get.isSome then regRoute s GET p (.wrapped (.base r)) else s
  let s := if r.post.isSome then regRoute s POST p (.wrapped (.base r)) else s
  let s := if r.put.isSome then regRoute s PUT p (.wrapped (.base r)) else s
  let s := if r.delete.isSome then regRoute s DELETE p (.wrapped (.base r)) else s
  let s := if r.head.isSome then regRoute s HEAD p (.wrapped (.base r)) else s
  let s := if r.patch.isSome then regRoute s PATCH p (.wrapped (.base r)) else s
  s

/-- Model of `DefaultAPI.AddResourceWithWrapper(resource, wrapper, paths...)`. -/
def addResourceWithWrapper (s : APIState) (r : Resource) (paths : List String) :
    APIState :=
  paths.foldl (fun s p => addResourceWithWrapperPath s r p) s

/-- Verbs of the fixed set the resource implements, in the registration order
of `AddResource`. -/
def supportedVerbs (r : Resource) : List String :=
  (if r.get.isSome then [GET] else []) ++
  (if r.post.isSome then [POST] else []) ++
  (if r.put.isSome then [PUT] else []) ++
  (if r.delete.isSome then [DELETE] else []) ++
  (if r.head.isSome then [HEAD] else []) ++
  (if r.patch.isSome then [PATCH] else [])

/-- Route entries `AddResourceWithWrapper` appends for the given paths: one per
(path, supported verb) pair, each holding the once-wrapped base handler. -/
def wrappedRoutes (r : Resource) : List String → List RouteEntry
  | [] => []
  | p :: ps =>
      (supportedVerbs r).map (fun v => { verb := v, path := p, handler := .wrapped (.base r) }) ++
        wrappedRoutes r ps

/-- Route entries with the given verb and path. -/
def routeMatches (v p : String) (e : RouteEntry) : Bool :=
  e.verb == v && e.path == p

/-- Response-writer events that add a value under the header name `n`. -/
def isAddOf (n : String) (e : RWEvent) : Bool :=
  match e with
  | .addHeader m _ => m == n
  | _ => false

/-- Command-line flag state registered by `init()`:
`-httpReadTimeout` and `-httpWriteTimeout`, both defaulting to 20. -/
structure Flags where
  httpReadTimeout : Nat
  httpWriteTimeout : Nat

/-- Flag values after `init()` when neither flag is given on the command line. -/
def defaultFlags : Flags := { httpReadTimeout := 20, httpWriteTimeout := 20 }

/-- Parameters of the `http.Server` literal built by `Start`: address string,
read/write timeouts in seconds, and maximum header bytes. -/
structure ServerConfig where
  addr : String
  readTimeoutSec : Nat
  writeTimeoutSec : Nat
  maxHeaderBytes : Nat

/-- Outcome of `DefaultAPI.Start(port)` up to the network boundary: either the
synchronous configuration error, or the listen call (`ListenAndServe`) with the
server configuration it was given. -/
inductive StartResult where
  | configError (msg : String)
  | listen (cfg : ServerConfig)

/-- Model of `DefaultAPI.Start(port)`: error when no router is bound, otherwise
the listen call with the hard-coded server parameters of `core.go`
(`ReadTimeout: 20 * time.Second`, `WriteTimeout: 20 * time.Second`,
`MaxHeaderBytes: 1 << 15`). The flag state is in scope for `Start` (package
globals) but its body never reads it. -/
def start (_flags : Flags) (s : APIState) (port : Int) : StartResult × List String :=
  if s.muxInitialized then
    (.listen { addr := ":" ++ toString port, readTimeoutSec := 20,
               writeTimeoutSec := 20, maxHeaderBytes := 32768 },
     if s.logger then ["sleepy: Listening on http://localhost:" ++ toString port] else [])
  else
    (.configError "You must add at least one resource to this API.",
     if s.logger then ["sleepy: You must add at least one resource to this API."] else [])

/-- Body value of the repository's own test resource:
`map[string][]string{"items": {"item1", "item2"}}`. -/
def itemsValue : Json := .obj [("items", .arr [.str "item1", .str "item2"])]

/-- Entry point of the test resource: returns `(200, itemsValue, nil)`. -/
def itemsEntry : EntryPoint :=
  fun _ _ _ => { code := 200, data := .val itemsValue, header := [] }

/-- Resource implementing only `Get` — a strict subset of the six verbs. -/
def getOnlyResource : Resource :=
  { get := some itemsEntry, post := none, put := none, delete := none,
    head := none, patch := none }

/-- Entry point returning a value `encoding/json` cannot serialize (a channel). -/
def badDataEntry : EntryPoint :=
  fun _ _ _ => { code := 200, data := .unsupported "chan int", header := [] }

/-- Resource whose `Get` returns an unserializable body. -/
def badDataResource : Resource :=
  { get := some badDataEntry, post := none, put := none, delete := none,
    head := none, patch := none }

/-- Entry point returning extra headers with repeated values under one name. -/
def headerEntry : EntryPoint :=
  fun _ _ _ =>
    { code := 201, data := .val .null, header := [("X-Tag", ["a", "b", "a"])] }

/-- Resource whose `Get` supplies extra response headers. -/
def headerResource : Resource :=
  { get := some headerEntry, post := none, put := none, delete := none,
    head := none, patch := none }

/-- Resource implementing `Get` and `Post`. -/
def getPostResource : Resource :=
  { get := some itemsEntry, post := some itemsEntry, put := none, delete := none,
    head := none, patch := none }

/-- Well-formed inbound request with the given method. -/
def testRequest (m : String) : Request :=
  { method := m, remoteAddr := "127.0.0.1:50000", urlPath := "/items",
    rawQuery := "", header := [], body := "", parseFormError := false }

/-- Request whose form data fails to parse. -/
def badFormRequest : Request :=
  { method := GET, remoteAddr := "127.0.0.1:50000", urlPath := "/items",
    rawQuery := "", header := [], body := "a=%zz", parseFormError := true }

/-- Condition on the text following a serialized value that keeps the greedy
number reader from consuming past it: the next character, if any, is not a
digit. Every context in the indented format satisfies it (`,`, `\n`, or end of
input follow a value). -/
def headNotDigit : List Char → Prop
  | [] => True
  | c :: _ => isDigitChar c = false

/-- Shape of serialized-value text as seen by the readers: non-empty, starting
with a character that is neither whitespace nor a closing bracket. -/
def goodHead : List Char → Prop
  | [] => False
  | c :: _ => isWs c = false ∧ c ≠ ']' ∧ c ≠ '\x7d'

mutual

/-- Fuel sufficient for `parseVal` to read back a serialized value. -/
def needFuel : Json → Nat
  | .null => 1
  | .bool _ => 1
  | .num _ => 1
  | .str _ => 1
  | .arr xs => needItems xs + 1
  | .obj fs => needFields fs + 1

/-- Fuel sufficient for `parseItems` on a serialized element list. -/
def needItems : List Json → Nat
  | [] => 0
  | x :: xs => needFuel x + needItems xs + 1

/-- Fuel sufficient for `parseFields` on a serialized field list. -/
def needFields : List (String × Json) → Nat
  | [] => 0
  | (_, v) :: fs => needFuel v + needFields fs + 1

end

/-! ### Decimal digit facts -/

theorem digitChar_toNat (d : Nat) (h : d < 10) : (digitChar d).toNat = 48 + d := by
  interval_cases d <;> rfl

theorem isDigitChar_digitChar (d : Nat) (h : d < 10) : isDigitChar (digitChar d) = true := by
  interval_cases d <;> decide

theorem natDigitsAux_zero (f : Nat) : natDigitsAux f 0 = [] := by
  cases f <;> rfl

theorem natDigitsAux_spec : ∀ f n, 0 < n → n ≤ f →
    natDigitsAux f n = (Nat.digits 10 n).reverse.map digitChar := by
  intro f
  induction f with
  | zero => intro n h1 h2; omega
  | succ f ih =>
    intro n h1 h2
    obtain ⟨m, rfl⟩ := Nat.exists_eq_succ_of_ne_zero (Nat.pos_iff_ne_zero.mp h1)
    rw [show natDigitsAux (f + 1) (m + 1) =
          natDigitsAux f ((m + 1) / 10) ++ [digitChar ((m + 1) % 10)] from rfl]
    rw [Nat.digits_def' (by norm_num : (1 : ℕ) < 10) h1]
    simp only [List.reverse_cons, List.map_append, List.map_cons, List.map_nil]
    congr 1
    rcases Nat.eq_zero_or_pos ((m + 1) / 10) with h0 | hpos
    · rw [h0, natDigitsAux_zero]; simp
    · have hd : (m + 1) / 10 < m + 1 := Nat.div_lt_self h1 (by norm_num)
      exact ih _ hpos (by omega)

theorem foldl_digitChars (ds : List Nat) (hds : ∀ d ∈ ds, d < 10) (a : Nat) :
    List.foldl (fun acc c => 10 * acc + (c.toNat - 48)) a (ds.reverse.map digitChar) =
      a * 10 ^ ds.length + Nat.ofDigits 10 ds := by
  induction ds generalizing a with
  | nil => simp
  | cons d ds ih =>
    rw [List.reverse_cons, List.map_append, List.map_cons, List.map_nil, List.foldl_concat]
    rw [ih (fun x hx => hds x (List.mem_cons_of_mem _ hx))]
    rw [Nat.ofDigits_cons, digitChar_toNat d (hds d (by simp))]
    have h48 : 48 + d - 48 = d := by omega
    rw [h48, List.length_cons, pow_succ]
    ring

theorem charsToNat_natRepr (n : Nat) : charsToNat (natRepr n) = n := by
  by_cases h : n = 0
  · subst h; decide
  · unfold natRepr
    rw [if_neg h, natDigitsAux_spec (n + 1) n (Nat.pos_of_ne_zero h) (by omega)]
    unfold charsToNat
    rw [foldl_digitChars _ (fun d hd => Nat.digits_lt_base (by norm_num) hd) 0]
    simp [Nat.ofDigits_digits]

theorem natRepr_digits (n : Nat) : ∀ c ∈ natRepr n, isDigitChar c = true := by
  intro c hc
  by_cases h : n = 0
  · subst h
    rw [show natRepr 0 = ['0'] from rfl] at hc
    simp only [List.mem_singleton] at hc
    subst hc; decide
  · unfold natRepr at hc
    rw [if_neg h, natDigitsAux_spec (n + 1) n (Nat.pos_of_ne_zero h) (by omega)] at hc
    simp only [List.mem_map, List.mem_reverse] at hc
    obtain ⟨d, hd, rfl⟩ := hc
    exact isDigitChar_digitChar d (Nat.digits_lt_base (by norm_num) hd)

theorem natRepr_ne_nil (n : Nat) : natRepr n ≠ [] := by
  by_cases h : n = 0
  · subst h; decide
  · unfold natRepr
    rw [if_neg h, natDigitsAux_spec (n + 1) n (Nat.pos_of_ne_zero h) (by omega)]
    simp [Nat.digits_ne_nil_iff_ne_zero, h]

/-- Character class facts about decimal digit characters, used to steer the
reader's branching. -/
theorem digit_head_facts (c : Char) (h : isDigitChar c = true) :
    isWs c = false ∧ c ≠ ']' ∧ c ≠ '\x7d' ∧ c ≠ '-' ∧ c ≠ 'n' ∧ c ≠ 't' ∧
      c ≠ 'f' ∧ c ≠ '"' ∧ c ≠ '[' ∧ c ≠ '\x7b' := by
  simp only [isDigitChar, decide_eq_true_eq] at h
  refine ⟨?_, ?_, ?_, ?_, ?_, ?_, ?_, ?_, ?_, ?_⟩
  · simp only [isWs, decide_eq_false_iff_not]
    rintro (rfl | rfl | rfl | rfl) <;> simp at h
  all_goals (rintro rfl; simp at h)

/-! ### Whitespace and scanning helpers -/

theorem skipWs_cons_of_not_ws {c : Char} (h : isWs c = false) (l : List Char) :
    skipWs (c :: l) = c :: l := by
  simp [skipWs, List.dropWhile_cons, h]

theorem skipWs_ws_append {pre : List Char} (hpre : ∀ c ∈ pre, isWs c = true)
    (l : List Char) : skipWs (pre ++ l) = skipWs l := by
  induction pre with
  | nil => rfl
  | cons c cs ih =>
    simp only [List.cons_append, skipWs, List.dropWhile_cons, hpre c (by simp),
      if_true]
    exact ih (fun x hx => hpre x (List.mem_cons_of_mem _ hx))

theorem mem_ind_ws (d : Nat) : ∀ c ∈ ind d, isWs c = true := by
  intro c hc
  rw [ind, List.mem_replicate] at hc
  rw [hc.2]; decide

theorem takeWhile_sat_append (p : Char → Bool) (l r : List Char)
    (hl : ∀ c ∈ l, p c = true) (hr : ∀ c cs, r = c :: cs → p c = false) :
    (l ++ r).takeWhile p = l ∧ (l ++ r).dropWhile p = r := by
  induction l with
  | nil =>
    cases r with
    | nil => simp
    | cons c cs =>
      simp [List.takeWhile_cons, List.dropWhile_cons, hr c cs rfl]
  | cons a l ih =>
    have ha : p a = true := hl a (by simp)
    have := ih (fun x hx => hl x (List.mem_cons_of_mem _ hx))
    simp [List.takeWhile_cons, List.dropWhile_cons, ha, this.1, this.2]

/-! ### String-literal round trip -/

theorem hexVal_hexDigitChar (x : Nat) (h : x < 16) :
    hexVal (hexDigitChar x) = some x := by
  interval_cases x <;> decide

theorem parseStrAux_quote (f : Nat) (rest : List Char) :
    parseStrAux (f + 1) ('"' :: rest) = some ([], rest) := by
  simp [parseStrAux]

theorem parseStrAux_plain (f : Nat) (c : Char) (rest : List Char)
    (h1 : ¬c = '"') (h2 : ¬c = '\\') :
    parseStrAux (f + 1) (c :: rest) =
      (parseStrAux f rest).map (fun p => (c :: p.1, p.2)) := by
  simp [parseStrAux, h1, h2]

theorem parseStrAux_esc (f : Nat) (e : Char) (rest : List Char) (u : Char)
    (he : ¬e = 'u') (hu : unescapeChar e = some u) :
    parseStrAux (f + 1) ('\\' :: e :: rest) =
      (parseStrAux f rest).map (fun p => (u :: p.1, p.2)) := by
  simp [parseStrAux, he, hu]

theorem parseStrAux_hex (f : Nat) (h1 h2 h3 h4 : Char) (rest : List Char)
    (a b c2 d2 : Nat) (ha : hexVal h1 = some a) (hb : hexVal h2 = some b)
    (hc : hexVal h3 = some c2) (hd : hexVal h4 = some d2) :
    parseStrAux (f + 1) ('\\' :: 'u' :: h1 :: h2 :: h3 :: h4 :: rest) =
      (parseStrAux f rest).map
        (fun p => (Char.ofNat (4096 * a + 256 * b + 16 * c2 + d2) :: p.1, p.2)) := by
  simp [parseStrAux, ha, hb, hc, hd]

theorem parseStrAux_escape (cs : List Char) :
    ∀ (fuel : Nat) (rest : List Char), (escapeList cs).length < fuel →
    parseStrAux fuel (escapeList cs ++ '"' :: rest) = some (cs, rest) := by
  induction cs with
  | nil =>
    intro fuel rest hf
    obtain ⟨f, rfl⟩ := Nat.exists_eq_succ_of_ne_zero (by omega : fuel ≠ 0)
    rw [show escapeList [] = [] from rfl, List.nil_append, parseStrAux_quote]
  | cons c cs ih =>
    intro fuel rest hf
    rw [escapeList] at hf ⊢
    rw [List.length_append] at hf
    have hne : (escapeChar c).length ≠ 0 := by
      rw [escapeChar]
      repeat' split
      all_goals simp
    obtain ⟨f, rfl⟩ := Nat.exists_eq_succ_of_ne_zero (by omega : fuel ≠ 0)
    have hih := ih f rest (by omega)
    rw [List.append_assoc]
    by_cases h1 : c = '"'
    · subst h1
      rw [show escapeChar '"' = ['\\', '"'] from rfl]
      simp only [List.cons_append, List.nil_append]
      rw [parseStrAux_esc f '"' _ '"' (by decide) rfl, hih]
      rfl
    · by_cases h2 : c = '\\'
      · subst h2
        rw [show escapeChar '\\' = ['\\', '\\'] from rfl]
        simp only [List.cons_append, List.nil_append]
        rw [parseStrAux_esc f '\\' _ '\\' (by decide) rfl, hih]
        rfl
      · by_cases h3 : c = '\n'
        · subst h3
          rw [show escapeChar '\n' = ['\\', 'n'] from rfl]
          simp only [List.cons_append, List.nil_append]
          rw [parseStrAux_esc f 'n' _ '\n' (by decide) rfl, hih]
          rfl
        · by_cases h4 : c = '\r'
          · subst h4
            rw [show escapeChar '\r' = ['\\', 'r'] from rfl]
            simp only [List.cons_append, List.nil_append]
            rw [parseStrAux_esc f 'r' _ '\r' (by decide) rfl, hih]
            rfl
          · by_cases h5 : c = '\t'
            · subst h5
              rw [show escapeChar '\t' = ['\\', 't'] from rfl]
              simp only [List.cons_append, List.nil_append]
              rw [parseStrAux_esc f 't' _ '\t' (by decide) rfl, hih]
              rfl
            · by_cases h6 : c.toNat < 32 ∨ c = '<' ∨ c = '>' ∨ c = '&'
              · have hlt : c.toNat < 256 := by
                  rcases h6 with h | rfl | rfl | rfl
                  · omega
                  all_goals decide
                simp only [escapeChar, if_neg h1, if_neg h2, if_neg h3, if_neg h4,
                  if_neg h5, if_pos h6, List.cons_append, List.nil_append]
                rw [parseStrAux_hex f '0' '0' _ _ _ 0 0 (c.toNat / 16) (c.toNat % 16)
                  rfl rfl (hexVal_hexDigitChar _ (by omega)) (hexVal_hexDigitChar _ (by omega)),
                  hih]
                have hc256 : 4096 * 0 + 256 * 0 + 16 * (c.toNat / 16) + c.toNat % 16 = c.toNat := by
                  omega
                rw [hc256, Char.ofNat_toNat]
                rfl
              · simp only [escapeChar, if_neg h1, if_neg h2, if_neg h3, if_neg h4,
                  if_neg h5, if_neg h6, List.cons_append, List.nil_append]
                rw [parseStrAux_plain f c _ h1 h2, hih]
                rfl

/-! ### Number round trip -/

theorem takeWhile_natRepr (m : Nat) (rest : List Char) (hrest : headNotDigit rest) :
    (natRepr m ++ rest).takeWhile isDigitChar = natRepr m ∧
      (natRepr m ++ rest).dropWhile isDigitChar = rest := by
  refine takeWhile_sat_append isDigitChar (natRepr m) rest (natRepr_digits m) ?_
  intro c cs h
  rw [h] at hrest
  simpa [headNotDigit] using hrest

theorem natRepr_isEmpty (m : Nat) : (natRepr m).isEmpty = false := by
  rw [List.isEmpty_eq_false_iff_exists_mem]
  cases h : natRepr m with
  | nil => exact absurd h (natRepr_ne_nil m)
  | cons c cs => exact ⟨c, by simp⟩

theorem parseNumber_natRepr (m : Nat) (rest : List Char) (hrest : headNotDigit rest) :
    parseNumber (natRepr m ++ rest) = some (.num (m : Int), rest) := by
  obtain ⟨c, cs, hcons⟩ : ∃ c cs, natRepr m = c :: cs := by
    cases h : natRepr m with
    | nil => exact absurd h (natRepr_ne_nil m)
    | cons c cs => exact ⟨c, cs, rfl⟩
  have hcd : isDigitChar c = true := natRepr_digits m c (by rw [hcons]; simp)
  have hcne : c ≠ '-' := (digit_head_facts c hcd).2.2.2.1
  rw [parseNumber.eq_def]
  split
  · next r heq =>
    rw [hcons, List.cons_append] at heq
    exact absurd (List.cons.injEq .. ▸ heq).1 hcne
  · next =>
    rw [(takeWhile_natRepr m rest hrest).1, (takeWhile_natRepr m rest hrest).2]
    rw [if_neg (by rw [natRepr_isEmpty m]; exact Bool.false_ne_true)]
    rw [charsToNat_natRepr m]

theorem parseNumber_intRepr (n : Int) (rest : List Char) (hrest : headNotDigit rest) :
    parseNumber (intRepr n ++ rest) = some (.num n, rest) := by
  by_cases hn : n < 0
  · rw [intRepr, if_pos hn, List.cons_append]
    rw [parseNumber.eq_def]
    split
    · next r heq =>
      obtain rfl : r = natRepr n.natAbs ++ rest := ((List.cons.injEq .. ▸ heq).2).symm
      rw [(takeWhile_natRepr n.natAbs rest hrest).1, (takeWhile_natRepr n.natAbs rest hrest).2]
      rw [if_neg (by rw [natRepr_isEmpty n.natAbs]; exact Bool.false_ne_true)]
      rw [charsToNat_natRepr n.natAbs]
      have : -((n.natAbs : Int)) = n := by omega
      rw [this]
    · next hne => exact absurd rfl (hne (natRepr n.natAbs ++ rest))
  · rw [intRepr, if_neg hn, parseNumber_natRepr n.natAbs rest hrest]
    have : ((n.natAbs : Int)) = n := by omega
    rw [this]

/-! ### Whitespace invariance of the readers -/

theorem parseVal_ws_lead (fuel : Nat) (pre : List Char)
    (hpre : ∀ c ∈ pre, isWs c = true) (l : List Char) :
    parseVal fuel (pre ++ l) = parseVal fuel l := by
  cases fuel with
  | zero => rfl
  | succ f =>
    simp only [parseVal]
    rw [skipWs_ws_append hpre]

theorem parseItems_ws_lead (fuel : Nat) (pre : List Char)
    (hpre : ∀ c ∈ pre, isWs c = true) (l : List Char) :
    parseItems fuel (pre ++ l) = parseItems fuel l := by
  cases fuel with
  | zero => rfl
  | succ f =>
    simp only [parseItems]
    rw [parseVal_ws_lead f pre hpre l]

theorem parseFields_ws_lead (fuel : Nat) (pre : List Char)
    (hpre : ∀ c ∈ pre, isWs c = true) (l : List Char) :
    parseFields fuel (pre ++ l) = parseFields fuel l := by
  cases fuel with
  | zero => rfl
  | succ f =>
    simp only [parseFields]
    rw [skipWs_ws_append hpre]

theorem parseItems_skipWs (fuel : Nat) (l : List Char) :
    parseItems fuel (skipWs l) = parseItems fuel l := by
  conv_rhs => rw [← List.takeWhile_append_dropWhile isWs l]
  exact (parseItems_ws_lead fuel (l.takeWhile isWs)
    (fun c hc => List.mem_takeWhile_imp hc) (l.dropWhile isWs)).symm

theorem parseFields_skipWs (fuel : Nat) (l : List Char) :
    parseFields fuel (skipWs l) = parseFields fuel l := by
  conv_rhs => rw [← List.takeWhile_append_dropWhile isWs l]
  exact (parseFields_ws_lead fuel (l.takeWhile isWs)
    (fun c hc => List.mem_takeWhile_imp hc) (l.dropWhile isWs)).symm

/-! ### Head shape of serialized values -/

theorem needFuel_pos (j : Json) : 1 ≤ needFuel j := by
  cases j <;> simp [needFuel]

theorem marshalVal_goodHead (j : Json) (d : Nat) : goodHead (marshalVal j d) := by
  cases j with
  | null => exact ⟨by decide, by decide, by decide⟩
  | bool b => cases b <;> exact ⟨by decide, by decide, by decide⟩
  | num n =>
    show goodHead (intRepr n)
    rw [intRepr]
    split
    · exact ⟨by decide, by decide, by decide⟩
    · obtain ⟨c, cs, hcons⟩ : ∃ c cs, natRepr n.natAbs = c :: cs := by
        cases h : natRepr n.natAbs with
        | nil => exact absurd h (natRepr_ne_nil n.natAbs)
        | cons c cs => exact ⟨c, cs, rfl⟩
      rw [hcons]
      have hd := natRepr_digits n.natAbs c (by rw [hcons]; simp)
      have hfacts := digit_head_facts c hd
      exact ⟨hfacts.1, hfacts.2.1, hfacts.2.2.1⟩
  | str s => exact ⟨by decide, by decide, by decide⟩
  | arr xs => cases xs <;> exact ⟨by decide, by decide, by decide⟩
  | obj fs => cases fs <;> exact ⟨by decide, by decide, by decide⟩

theorem marshalItems_cons (x : Json) (xs : List Json) (d : Nat) :
    ∃ z, marshalItems (x :: xs) d = ind d ++ (marshalVal x d ++ z) := by
  cases xs with
  | nil => exact ⟨[], by simp [marshalItems]⟩
  | cons y ys =>
    exact ⟨',' :: '\n' :: marshalItems (y :: ys) d, by simp [marshalItems]⟩

theorem marshalFields_cons (k : String) (v : Json) (gs : List (String × Json))
    (d : Nat) :
    ∃ z, marshalFields ((k, v) :: gs) d = ind d ++ (quoteString k ++ z) := by
  cases gs with
  | nil => exact ⟨':' :: ' ' :: marshalVal v d, by simp [marshalFields]⟩
  | cons g gs =>
    exact ⟨':' :: ' ' :: marshalVal v d ++ ',' :: '\n' :: marshalFields (g :: gs) d,
      by simp [marshalFields]⟩

/-! ### Reader step lemmas -/

theorem parseVal_open_bracket (f : Nat) (l r : List Char) (hl : skipWs l = '[' :: r) :
    parseVal (f + 1) l =
      match skipWs r with
      | ']' :: r2 => some (.arr [], r2)
      | l2 => (parseItems f l2).map (fun p => (.arr p.1, p.2)) := by
  simp [parseVal, hl]

theorem parseVal_open_brace (f : Nat) (l r : List Char) (hl : skipWs l = '\x7b' :: r) :
    parseVal (f + 1) l =
      match skipWs r with
      | '\x7d' :: r2 => some (.obj [], r2)
      | l2 => (parseFields f l2).map (fun p => (.obj p.1, p.2)) := by
  simp [parseVal, hl]

theorem parseItems_step (f : Nat) (l : List Char) (v : Json) (r : List Char)
    (hv : parseVal f l = some (v, r)) :
    parseItems (f + 1) l =
      match skipWs r with
      | ',' :: r2 => (parseItems f r2).map (fun p => (v :: p.1, p.2))
      | ']' :: r2 => some ([v], r2)
      | _ => none := by
  simp only [parseItems, hv]

theorem parseItems_step_comma (f : Nat) (l : List Char) (v : Json) (r r2 : List Char)
    (hv : parseVal f l = some (v, r)) (hr : skipWs r = ',' :: r2) :
    parseItems (f + 1) l = (parseItems f r2).map (fun p => (v :: p.1, p.2)) := by
  rw [parseItems_step f l v r hv, hr]
  rfl

theorem parseItems_step_close (f : Nat) (l : List Char) (v : Json) (r r2 : List Char)
    (hv : parseVal f l = some (v, r)) (hr : skipWs r = ']' :: r2) :
    parseItems (f + 1) l = some ([v], r2) := by
  rw [parseItems_step f l v r hv, hr]
  rfl

theorem parseFields_step (f : Nat) (l r1 : List Char) (ks : List Char)
    (r2 r3 : List Char) (v : Json) (r4 : List Char)
    (h1 : skipWs l = '"' :: r1)
    (h2 : parseStrAux (r1.length + 1) r1 = some (ks, r2))
    (h3 : skipWs r2 = ':' :: r3)
    (h4 : parseVal f r3 = some (v, r4)) :
    parseFields (f + 1) l =
      match skipWs r4 with
      | ',' :: r5 => (parseFields f r5).map (fun p => ((String.mk ks, v) :: p.1, p.2))
      | '\x7d' :: r5 => some ([(String.mk ks, v)], r5)
      | _ => none := by
  simp only [parseFields, h1, h2, h3, h4]

theorem parseFields_step_comma (f : Nat) (l r1 : List Char) (ks : List Char)
    (r2 r3 : List Char) (v : Json) (r4 r5 : List Char)
    (h1 : skipWs l = '"' :: r1)
    (h2 : parseStrAux (r1.length + 1) r1 = some (ks, r2))
    (h3 : skipWs r2 = ':' :: r3)
    (h4 : parseVal f r3 = some (v, r4))
    (h5 : skipWs r4 = ',' :: r5) :
    parseFields (f + 1) l =
      (parseFields f r5).map (fun p => ((String.mk ks, v) :: p.1, p.2)) := by
  rw [parseFields_step f l r1 ks r2 r3 v r4 h1 h2 h3 h4, h5]
  rfl

theorem parseFields_step_close (f : Nat) (l r1 : List Char) (ks : List Char)
    (r2 r3 : List Char) (v : Json) (r4 r5 : List Char)
    (h1 : skipWs l = '"' :: r1)
    (h2 : parseStrAux (r1.length + 1) r1 = some (ks, r2))
    (h3 : skipWs r2 = ':' :: r3)
    (h4 : parseVal f r3 = some (v, r4))
    (h5 : skipWs r4 = '\x7d' :: r5) :
    parseFields (f + 1) l = some ([(String.mk ks, v)], r5) := by
  rw [parseFields_step f l r1 ks r2 r3 v r4 h1 h2 h3 h4, h5]
  rfl

theorem parseVal_step_cons (f : Nat) (c : Char) (tl : List Char)
    (hc : isWs c = false) :
    parseVal (f + 1) (c :: tl) =
      (if c = 'n' then
        match tl with
        | 'u' :: 'l' :: 'l' :: r => some (Json.null, r)
        | _ => none
      else if c = 't' then
        match tl with
        | 'r' :: 'u' :: 'e' :: r => some (Json.bool true, r)
        | _ => none
      else if c = 'f' then
        match tl with
        | 'a' :: 'l' :: 's' :: 'e' :: r => some (Json.bool false, r)
        | _ => none
      else if c = '"' then
        (parseStrAux (tl.length + 1) tl).map (fun p => (.str (String.mk p.1), p.2))
      else if c = '[' then
        match skipWs tl with
        | ']' :: r2 => some (.arr [], r2)
        | l2 => (parseItems f l2).map (fun p => (.arr p.1, p.2))
      else if c = '\x7b' then
        match skipWs tl with
        | '\x7d' :: r2 => some (.obj [], r2)
        | l2 => (parseFields f l2).map (fun p => (.obj p.1, p.2))
      else if c = '-' ∨ isDigitChar c = true then parseNumber (c :: tl)
      else none) := by
  simp only [parseVal, skipWs_cons_of_not_ws hc]

theorem headNotDigit_cons (c : Char) (l : List Char) (h : isDigitChar c = false) :
    headNotDigit (c :: l) := h

/-! ### Round trip: the reader inverts the serializer -/

mutual

theorem rt_val (j : Json) (d : Nat) (fuel : Nat) (rest : List Char)
    (hfuel : needFuel j ≤ fuel) (hrest : headNotDigit rest) :
    parseVal fuel (marshalVal j d ++ rest) = some (j, rest) := by
  obtain ⟨f, rfl⟩ : ∃ f, fuel = f + 1 := by
    have := needFuel_pos j
    exact ⟨fuel - 1, by omega⟩
  cases j with
  | null => rfl
  | bool b => cases b <;> rfl
  | num n =>
    have hgh : goodHead (intRepr n) := marshalVal_goodHead (.num n) d
    obtain ⟨c, cs, hcons⟩ : ∃ c cs, intRepr n = c :: cs := by
      cases h : intRepr n with
      | nil => rw [h] at hgh; exact absurd hgh (by simp [goodHead])
      | cons c cs => exact ⟨c, cs, rfl⟩
    have hfacts : isWs c = false ∧ ¬c = 'n' ∧ ¬c = 't' ∧ ¬c = 'f' ∧ ¬c = '"' ∧
        ¬c = '[' ∧ ¬c = '\x7b' ∧ (c = '-' ∨ isDigitChar c = true) := by
      rw [intRepr] at hcons
      split at hcons
      · injection hcons with hc1 hc2
        subst hc1
        exact ⟨by decide, by decide, by decide, by decide, by decide, by decide,
          by decide, Or.inl rfl⟩
      · have hd := natRepr_digits n.natAbs c (by rw [hcons]; simp)
        have hfa := digit_head_facts c hd
        exact ⟨hfa.1, hfa.2.2.2.2.1, hfa.2.2.2.2.2.1, hfa.2.2.2.2.2.2.1,
          hfa.2.2.2.2.2.2.2.1, hfa.2.2.2.2.2.2.2.2.1, hfa.2.2.2.2.2.2.2.2.2,
          Or.inr hd⟩
    show parseVal (f + 1) (intRepr n ++ rest) = some (.num n, rest)
    rw [hcons, List.cons_append, parseVal_step_cons f c (cs ++ rest) hfacts.1]
    rw [if_neg hfacts.2.1, if_neg hfacts.2.2.1, if_neg hfacts.2.2.2.1,
      if_neg hfacts.2.2.2.2.1, if_neg hfacts.2.2.2.2.2.1, if_neg hfacts.2.2.2.2.2.2.1,
      if_pos hfacts.2.2.2.2.2.2.2]
    rw [← List.cons_append, ← hcons]
    exact parseNumber_intRepr n rest hrest
  | str s =>
    show parseVal (f + 1) (quoteString s ++ rest) = some (.str s, rest)
    rw [quoteString]
    simp only [List.cons_append, List.append_assoc, List.singleton_append,
      List.nil_append]
    rw [parseVal_step_cons f '"' (escapeList s.data ++ '"' :: rest) (by decide)]
    rw [if_neg (by decide), if_neg (by decide), if_neg (by decide), if_pos rfl]
    rw [parseStrAux_escape s.data ((escapeList s.data ++ '"' :: rest).length + 1) rest
      (by rw [List.length_append]; omega)]
    rfl
  | arr xs =>
    cases xs with
    | nil => rfl
    | cons x xs =>
      rw [show needFuel (.arr (x :: xs)) = needItems (x :: xs) + 1 from rfl] at hfuel
      have hA : marshalVal (.arr (x :: xs)) d ++ rest =
          '[' :: ('\n' :: (marshalItems (x :: xs) (d + 1) ++
            ('\n' :: (ind d ++ (']' :: rest))))) := by
        rw [show marshalVal (.arr (x :: xs)) d =
          '[' :: '\n' :: marshalItems (x :: xs) (d + 1) ++ '\n' :: ind d ++ [']'] from rfl]
        simp [List.append_assoc]
      rw [hA]
      rw [parseVal_open_bracket f _ ('\n' :: (marshalItems (x :: xs) (d + 1) ++
        ('\n' :: (ind d ++ (']' :: rest))))) (skipWs_cons_of_not_ws (by decide) _)]
      obtain ⟨z, hz⟩ := marshalItems_cons x xs (d + 1)
      obtain ⟨c, tl, hctl, hcw, hcbr, hcbr2⟩ :
          ∃ c tl, marshalVal x (d + 1) = c :: tl ∧ isWs c = false ∧
            c ≠ ']' ∧ c ≠ '\x7d' := by
        have hg := marshalVal_goodHead x (d + 1)
        cases h : marshalVal x (d + 1) with
        | nil => rw [h] at hg; exact absurd hg (by simp [goodHead])
        | cons c tl => rw [h] at hg; exact ⟨c, tl, rfl, hg.1, hg.2.1, hg.2.2⟩
      have hS : skipWs ('\n' :: (marshalItems (x :: xs) (d + 1) ++
          ('\n' :: (ind d ++ (']' :: rest))))) =
          c :: (tl ++ (z ++ ('\n' :: (ind d ++ (']' :: rest))))) := by
        have h1 : ('\n' :: (marshalItems (x :: xs) (d + 1) ++
            ('\n' :: (ind d ++ (']' :: rest))))) =
            ['\n'] ++ (ind (d + 1) ++
              (c :: (tl ++ (z ++ ('\n' :: (ind d ++ (']' :: rest))))))) := by
          rw [hz, hctl]
          simp [List.append_assoc]
        rw [h1, skipWs_ws_append (by decide), skipWs_ws_append (mem_ind_ws (d + 1)),
          skipWs_cons_of_not_ws hcw]
      rw [hS]
      have hP : parseItems f (c :: (tl ++ (z ++ ('\n' :: (ind d ++ (']' :: rest)))))) =
          some (x :: xs, rest) := by
        rw [← hS, parseItems_skipWs]
        rw [show ('\n' :: (marshalItems (x :: xs) (d + 1) ++
          ('\n' :: (ind d ++ (']' :: rest))))) =
          ['\n'] ++ (marshalItems (x :: xs) (d + 1) ++
            ('\n' :: (ind d ++ (']' :: rest)))) from rfl]
        rw [parseItems_ws_lead f ['\n'] (by decide) _]
        exact rt_items (x :: xs) (d + 1) d f rest (by simp) (by omega)
      split
      · next r2 heq =>
        exact absurd (List.cons.injEq .. ▸ heq).1 hcbr
      · next =>
        rw [hP]
        rfl
  | obj fs =>
    cases fs with
    | nil => rfl
    | cons g gs =>
      obtain ⟨k, v⟩ := g
      rw [show needFuel (.obj ((k, v) :: gs)) = needFields ((k, v) :: gs) + 1 from rfl]
        at hfuel
      have hA : marshalVal (.obj ((k, v) :: gs)) d ++ rest =
          '\x7b' :: ('\n' :: (marshalFields ((k, v) :: gs) (d + 1) ++
            ('\n' :: (ind d ++ ('\x7d' :: rest))))) := by
        rw [show marshalVal (.obj ((k, v) :: gs)) d =
          '\x7b' :: '\n' :: marshalFields ((k, v) :: gs) (d + 1) ++
            '\n' :: ind d ++ ['\x7d'] from rfl]
        simp [List.append_assoc]
      rw [hA]
      rw [parseVal_open_brace f _ ('\n' :: (marshalFields ((k, v) :: gs) (d + 1) ++
        ('\n' :: (ind d ++ ('\x7d' :: rest))))) (skipWs_cons_of_not_ws (by decide) _)]
      obtain ⟨z, hz⟩ := marshalFields_cons k v gs (d + 1)
      have hS : skipWs ('\n' :: (marshalFields ((k, v) :: gs) (d + 1) ++
          ('\n' :: (ind d ++ ('\x7d' :: rest))))) =
          '"' :: (escapeList k.data ++
            ('"' :: (z ++ ('\n' :: (ind d ++ ('\x7d' :: rest)))))) := by
        have h1 : ('\n' :: (marshalFields ((k, v) :: gs) (d + 1) ++
            ('\n' :: (ind d ++ ('\x7d' :: rest))))) =
            ['\n'] ++ (ind (d + 1) ++
              ('"' :: (escapeList k.data ++
                ('"' :: (z ++ ('\n' :: (ind d ++ ('\x7d' :: rest)))))))) := by
          rw [hz, quoteString]
          simp [List.append_assoc]
        rw [h1, skipWs_ws_append (by decide), skipWs_ws_append (mem_ind_ws (d + 1)),
          skipWs_cons_of_not_ws (by decide)]
      rw [hS]
      have hP : parseFields f ('"' :: (escapeList k.data ++
          ('"' :: (z ++ ('\n' :: (ind d ++ ('\x7d' :: rest))))))) =
          some ((k, v) :: gs, rest) := by
        rw [← hS, parseFields_skipWs]
        rw [show ('\n' :: (marshalFields ((k, v) :: gs) (d + 1) ++
          ('\n' :: (ind d ++ ('\x7d' :: rest))))) =
          ['\n'] ++ (marshalFields ((k, v) :: gs) (d + 1) ++
            ('\n' :: (ind d ++ ('\x7d' :: rest)))) from rfl]
        rw [parseFields_ws_lead f ['\n'] (by decide) _]
        exact rt_fields ((k, v) :: gs) (d + 1) d f rest (by simp) (by omega)
      split
      · next r2 heq =>
        exact absurd (List.cons.injEq .. ▸ heq).1 (by decide)
      · next =>
        rw [hP]
        rfl

theorem rt_items (xs : List Json) (d dc : Nat) (fuel : Nat) (rest : List Char)
    (hne : xs ≠ []) (hfuel : needItems xs ≤ fuel) :
    parseItems fuel (marshalItems xs d ++ ('\n' :: (ind dc ++ (']' :: rest)))) =
      some (xs, rest) := by
  cases xs with
  | nil => exact absurd rfl hne
  | cons x xs' =>
    cases xs' with
    | nil =>
      rw [show needItems [x] = needFuel x + needItems ([] : List Json) + 1 from rfl,
        show needItems ([] : List Json) = 0 from rfl] at hfuel
      obtain ⟨f, rfl⟩ : ∃ f, fuel = f + 1 := ⟨fuel - 1, by omega⟩
      have hv : parseVal f (marshalItems [x] d ++ ('\n' :: (ind dc ++ (']' :: rest)))) =
          some (x, '\n' :: (ind dc ++ (']' :: rest))) := by
        rw [show marshalItems [x] d = ind d ++ marshalVal x d from rfl,
          List.append_assoc, parseVal_ws_lead f (ind d) (mem_ind_ws d) _]
        exact rt_val x d f ('\n' :: (ind dc ++ (']' :: rest))) (by omega)
          (headNotDigit_cons _ _ (by decide))
      have hS : skipWs ('\n' :: (ind dc ++ (']' :: rest))) = ']' :: rest := by
        rw [show ('\n' :: (ind dc ++ (']' :: rest))) =
          ['\n'] ++ (ind dc ++ (']' :: rest)) from rfl]
        rw [skipWs_ws_append (by decide), skipWs_ws_append (mem_ind_ws dc),
          skipWs_cons_of_not_ws (by decide)]
      exact parseItems_step_close f _ x _ rest hv hS
    | cons y ys =>
      rw [show needItems (x :: y :: ys) = needFuel x + needItems (y :: ys) + 1 from rfl]
        at hfuel
      obtain ⟨f, rfl⟩ : ∃ f, fuel = f + 1 := ⟨fuel - 1, by omega⟩
      have hv : parseVal f (marshalItems (x :: y :: ys) d ++
          ('\n' :: (ind dc ++ (']' :: rest)))) =
          some (x, ',' :: '\n' :: (marshalItems (y :: ys) d ++
            ('\n' :: (ind dc ++ (']' :: rest))))) := by
        rw [show marshalItems (x :: y :: ys) d =
          ind d ++ marshalVal x d ++ ',' :: '\n' :: marshalItems (y :: ys) d from rfl]
        simp only [List.append_assoc, List.cons_append]
        rw [parseVal_ws_lead f (ind d) (mem_ind_ws d) _]
        exact rt_val x d f _ (by omega) (headNotDigit_cons _ _ (by decide))
      have hS : skipWs (',' :: '\n' :: (marshalItems (y :: ys) d ++
          ('\n' :: (ind dc ++ (']' :: rest))))) =
          ',' :: ('\n' :: (marshalItems (y :: ys) d ++
            ('\n' :: (ind dc ++ (']' :: rest))))) :=
        skipWs_cons_of_not_ws (by decide) _
      rw [parseItems_step_comma f _ x _ _ hv hS]
      rw [show ('\n' :: (marshalItems (y :: ys) d ++
        ('\n' :: (ind dc ++ (']' :: rest))))) =
        ['\n'] ++ (marshalItems (y :: ys) d ++
          ('\n' :: (ind dc ++ (']' :: rest)))) from rfl]
      rw [parseItems_ws_lead f ['\n'] (by decide) _]
      rw [rt_items (y :: ys) d dc f rest (by simp) (by omega)]
      rfl

theorem rt_fields (fs : List (String × Json)) (d dc : Nat) (fuel : Nat)
    (rest : List Char) (hne : fs ≠ []) (hfuel : needFields fs ≤ fuel) :
    parseFields fuel (marshalFields fs d ++ ('\n' :: (ind dc ++ ('\x7d' :: rest)))) =
      some (fs, rest) := by
  cases fs with
  | nil => exact absurd rfl hne
  | cons g gs' =>
    obtain ⟨k, v⟩ := g
    cases gs' with
    | nil =>
      rw [show needFields [(k, v)] =
        needFuel v + needFields ([] : List (String × Json)) + 1 from rfl,
        show needFields ([] : List (String × Json)) = 0 from rfl] at hfuel
      obtain ⟨f, rfl⟩ : ∃ f, fuel = f + 1 := ⟨fuel - 1, by omega⟩
      have h1 : skipWs (marshalFields [(k, v)] d ++
          ('\n' :: (ind dc ++ ('\x7d' :: rest)))) =
          '"' :: (escapeList k.data ++ ('"' :: (':' :: ' ' ::
            (marshalVal v d ++ ('\n' :: (ind dc ++ ('\x7d' :: rest))))))) := by
        have heq : marshalFields [(k, v)] d ++ ('\n' :: (ind dc ++ ('\x7d' :: rest))) =
            ind d ++ ('"' :: (escapeList k.data ++ ('"' :: (':' :: ' ' ::
              (marshalVal v d ++ ('\n' :: (ind dc ++ ('\x7d' :: rest)))))))) := by
          rw [show marshalFields [(k, v)] d =
            ind d ++ quoteString k ++ ':' :: ' ' :: marshalVal v d from rfl, quoteString]
          simp [List.append_assoc]
        rw [heq, skipWs_ws_append (mem_ind_ws d), skipWs_cons_of_not_ws (by decide)]
      have h2 := parseStrAux_escape k.data
        ((escapeList k.data ++ '"' :: (':' :: ' ' ::
          (marshalVal v d ++ ('\n' :: (ind dc ++ ('\x7d' :: rest)))))).length + 1)
        (':' :: ' ' :: (marshalVal v d ++ ('\n' :: (ind dc ++ ('\x7d' :: rest)))))
        (by rw [List.length_append]; omega)
      have h3 : skipWs (':' :: ' ' ::
          (marshalVal v d ++ ('\n' :: (ind dc ++ ('\x7d' :: rest))))) =
          ':' :: (' ' :: (marshalVal v d ++ ('\n' :: (ind dc ++ ('\x7d' :: rest))))) :=
        skipWs_cons_of_not_ws (by decide) _
      have h4 : parseVal f (' ' :: (marshalVal v d ++
          ('\n' :: (ind dc ++ ('\x7d' :: rest))))) =
          some (v, '\n' :: (ind dc ++ ('\x7d' :: rest))) := by
        rw [show (' ' :: (marshalVal v d ++ ('\n' :: (ind dc ++ ('\x7d' :: rest))))) =
          [' '] ++ (marshalVal v d ++ ('\n' :: (ind dc ++ ('\x7d' :: rest)))) from rfl]
        rw [parseVal_ws_lead f [' '] (by decide) _]
        exact rt_val v d f _ (by omega) (headNotDigit_cons _ _ (by decide))
      have h5 : skipWs ('\n' :: (ind dc ++ ('\x7d' :: rest))) = '\x7d' :: rest := by
        rw [show ('\n' :: (ind dc ++ ('\x7d' :: rest))) =
          ['\n'] ++ (ind dc ++ ('\x7d' :: rest)) from rfl]
        rw [skipWs_ws_append (by decide), skipWs_ws_append (mem_ind_ws dc),
          skipWs_cons_of_not_ws (by decide)]
      rw [parseFields_step_close f _ _ k.data _ _ v _ rest h1 h2 h3 h4 h5]
    | cons g2 gs =>
      rw [show needFields ((k, v) :: g2 :: gs) =
        needFuel v + needFields (g2 :: gs) + 1 from rfl] at hfuel
      obtain ⟨f, rfl⟩ : ∃ f, fuel = f + 1 := ⟨fuel - 1, by omega⟩
      have h1 : skipWs (marshalFields ((k, v) :: g2 :: gs) d ++
          ('\n' :: (ind dc ++ ('\x7d' :: rest)))) =
          '"' :: (escapeList k.data ++ ('"' :: (':' :: ' ' ::
            (marshalVal v d ++ (',' :: '\n' :: (marshalFields (g2 :: gs) d ++
              ('\n' :: (ind dc ++ ('\x7d' :: rest))))))))) := by
        have heq : marshalFields ((k, v) :: g2 :: gs) d ++
            ('\n' :: (ind dc ++ ('\x7d' :: rest))) =
            ind d ++ ('"' :: (escapeList k.data ++ ('"' :: (':' :: ' ' ::
              (marshalVal v d ++ (',' :: '\n' :: (marshalFields (g2 :: gs) d ++
                ('\n' :: (ind dc ++ ('\x7d' :: rest)))))))))) := by
          rw [show marshalFields ((k, v) :: g2 :: gs) d =
            ind d ++ quoteString k ++ ':' :: ' ' :: marshalVal v d ++
              ',' :: '\n' :: marshalFields (g2 :: gs) d from rfl, quoteString]
          simp [List.append_assoc]
        rw [heq, skipWs_ws_append (mem_ind_ws d), skipWs_cons_of_not_ws (by decide)]
      have h2 := parseStrAux_escape k.data
        ((escapeList k.data ++ '"' :: (':' :: ' ' ::
          (marshalVal v d ++ (',' :: '\n' :: (marshalFields (g2 :: gs) d ++
            ('\n' :: (ind dc ++ ('\x7d' :: rest)))))))).length + 1)
        (':' :: ' ' :: (marshalVal v d ++ (',' :: '\n' ::
          (marshalFields (g2 :: gs) d ++ ('\n' :: (ind dc ++ ('\x7d' :: rest)))))))
        (by rw [List.length_append]; omega)
      have h3 : skipWs (':' :: ' ' :: (marshalVal v d ++ (',' :: '\n' ::
          (marshalFields (g2 :: gs) d ++ ('\n' :: (ind dc ++ ('\x7d' :: rest))))))) =
          ':' :: (' ' :: (marshalVal v d ++ (',' :: '\n' ::
            (marshalFields (g2 :: gs) d ++ ('\n' :: (ind dc ++ ('\x7d' :: rest))))))) :=
        skipWs_cons_of_not_ws (by decide) _
      have h4 : parseVal f (' ' :: (marshalVal v d ++ (',' :: '\n' ::
          (marshalFields (g2 :: gs) d ++ ('\n' :: (ind dc ++ ('\x7d' :: rest))))))) =
          some (v, ',' :: '\n' :: (marshalFields (g2 :: gs) d ++
            ('\n' :: (ind dc ++ ('\x7d' :: rest))))) := by
        rw [show (' ' :: (marshalVal v d ++ (',' :: '\n' ::
          (marshalFields (g2 :: gs) d ++ ('\n' :: (ind dc ++ ('\x7d' :: rest))))))) =
          [' '] ++ (marshalVal v d ++ (',' :: '\n' ::
            (marshalFields (g2 :: gs) d ++ ('\n' :: (ind dc ++ ('\x7d' :: rest))))))
          from rfl]
        rw [parseVal_ws_lead f [' '] (by decide) _]
        exact rt_val v d f _ (by omega) (headNotDigit_cons _ _ (by decide))
      have h5 : skipWs (',' :: '\n' :: (marshalFields (g2 :: gs) d ++
          ('\n' :: (ind dc ++ ('\x7d' :: rest))))) =
          ',' :: ('\n' :: (marshalFields (g2 :: gs) d ++
            ('\n' :: (ind dc ++ ('\x7d' :: rest))))) :=
        skipWs_cons_of_not_ws (by decide) _
      rw [parseFields_step_comma f _ _ k.data _ _ v _ _ h1 h2 h3 h4 h5]
      rw [show ('\n' :: (marshalFields (g2 :: gs) d ++
        ('\n' :: (ind dc ++ ('\x7d' :: rest))))) =
        ['\n'] ++ (marshalFields (g2 :: gs) d ++
          ('\n' :: (ind dc ++ ('\x7d' :: rest)))) from rfl]
      rw [parseFields_ws_lead f ['\n'] (by decide) _]
      rw [rt_fields (g2 :: gs) d dc f rest (by simp) (by omega)]
      rfl

end

theorem intRepr_ne_nil (n : Int) : intRepr n ≠ [] := by
  rw [intRepr]
  split
  · simp
  · exact natRepr_ne_nil n.natAbs

mutual

theorem needFuel_le_len (j : Json) (d : Nat) :
    needFuel j ≤ (marshalVal j d).length := by
  cases j with
  | null => exact (by norm_num : (1 : Nat) ≤ 4)
  | bool b => cases b
              · exact (by norm_num : (1 : Nat) ≤ 5)
              · exact (by norm_num : (1 : Nat) ≤ 4)
  | num n =>
    show 1 ≤ (intRepr n).length
    exact List.length_pos.mpr (intRepr_ne_nil n)
  | str s =>
    show 1 ≤ (quoteString s).length
    rw [quoteString]
    simp
  | arr xs =>
    cases xs with
    | nil => exact (by norm_num : (1 : Nat) ≤ 2)
    | cons x xs =>
      have hIH := needItems_le_len (x :: xs) (d + 1) (by omega)
      show needItems (x :: xs) + 1 ≤
        ('[' :: '\n' :: marshalItems (x :: xs) (d + 1) ++ '\n' :: ind d ++ [']']).length
      simp only [List.length_append, List.length_cons, ind, List.length_replicate]
      omega
  | obj fs =>
    cases fs with
    | nil => exact (by norm_num : (1 : Nat) ≤ 2)
    | cons g gs =>
      obtain ⟨k, v⟩ := g
      have hIH := needFields_le_len ((k, v) :: gs) (d + 1) (by omega)
      show needFields ((k, v) :: gs) + 1 ≤
        ('\x7b' :: '\n' :: marshalFields ((k, v) :: gs) (d + 1) ++
          '\n' :: ind d ++ ['\x7d']).length
      simp only [List.length_append, List.length_cons, ind, List.length_replicate]
      omega

theorem needItems_le_len (xs : List Json) (d : Nat) (hd : 1 ≤ d) :
    needItems xs ≤ (marshalItems xs d).length := by
  cases xs with
  | nil => exact Nat.le_refl 0
  | cons x xs' =>
    cases xs' with
    | nil =>
      have hIH := needFuel_le_len x d
      show needFuel x + needItems ([] : List Json) + 1 ≤
        (ind d ++ marshalVal x d).length
      simp only [List.length_append, ind, List.length_replicate, needItems]
      omega
    | cons y ys =>
      have hIH1 := needFuel_le_len x d
      have hIH2 := needItems_le_len (y :: ys) d hd
      show needFuel x + needItems (y :: ys) + 1 ≤
        (ind d ++ marshalVal x d ++ ',' :: '\n' :: marshalItems (y :: ys) d).length
      simp only [List.length_append, List.length_cons, ind, List.length_replicate]
      omega

theorem needFields_le_len (fs : List (String × Json)) (d : Nat) (hd : 1 ≤ d) :
    needFields fs ≤ (marshalFields fs d).length := by
  cases fs with
  | nil => exact Nat.le_refl 0
  | cons g gs' =>
    obtain ⟨k, v⟩ := g
    cases gs' with
    | nil =>
      have hIH := needFuel_le_len v d
      show needFuel v + needFields ([] : List (String × Json)) + 1 ≤
        (ind d ++ quoteString k ++ ':' :: ' ' :: marshalVal v d).length
      simp only [List.length_append, List.length_cons, ind, List.length_replicate,
        needFields]
      omega
    | cons g2 gs =>
      have hIH1 := needFuel_le_len v d
      have hIH2 := needFields_le_len (g2 :: gs) d hd
      show needFuel v + needFields (g2 :: gs) + 1 ≤
        (ind d ++ quoteString k ++ ':' :: ' ' :: marshalVal v d ++
          ',' :: '\n' :: marshalFields (g2 :: gs) d).length
      simp only [List.length_append, List.length_cons, ind, List.length_replicate]
      omega

end

/-- Parsing the exact output of the indented serializer returns the serialized
value: the serializer is injective and the response body determines the
handler's value. -/
theorem parseJson_marshal (j : Json) : parseJson (marshalIndentJson j) = some j := by
  have h := rt_val j 0 ((marshalVal j 0).length + 1) []
    (by have := needFuel_le_len j 0; omega) trivial
  rw [List.append_nil] at h
  rw [marshalIndentJson]
  simp only [parseJson]
  rw [h]
  rfl

/-! ### Dispatcher facts -/

theorem isSome_false_iff {α : Type} (o : Option α) : o.isSome = false ↔ o = none := by
  cases o <;> simp

theorem supportsVerb_false_iff (r : Resource) (m : String) :
    supportsVerb r m = false ↔ resolveHandler r m = none := by
  rw [supportsVerb, resolveHandler]
  by_cases h1 : m = GET
  · subst h1
    simp [GET, POST, PUT, DELETE, HEAD, PATCH, isSome_false_iff]
  · by_cases h2 : m = POST
    · subst h2
      simp [GET, POST, PUT, DELETE, HEAD, PATCH, isSome_false_iff, beq_eq_false_iff_ne.mpr h1]
    · by_cases h3 : m = PUT
      · subst h3
        simp [GET, POST, PUT, DELETE, HEAD, PATCH, isSome_false_iff, beq_eq_false_iff_ne.mpr h1,
          beq_eq_false_iff_ne.mpr h2]
      · by_cases h4 : m = DELETE
        · subst h4
          simp [GET, POST, PUT, DELETE, HEAD, PATCH, isSome_false_iff, beq_eq_false_iff_ne.mpr h1,
            beq_eq_false_iff_ne.mpr h2, beq_eq_false_iff_ne.mpr h3]
        · by_cases h5 : m = HEAD
          · subst h5
            simp [GET, POST, PUT, DELETE, HEAD, PATCH, isSome_false_iff, beq_eq_false_iff_ne.mpr h1,
              beq_eq_false_iff_ne.mpr h2, beq_eq_false_iff_ne.mpr h3,
              beq_eq_false_iff_ne.mpr h4]
          · by_cases h6 : m = PATCH
            · subst h6
              simp [GET, POST, PUT, DELETE, HEAD, PATCH, isSome_false_iff, beq_eq_false_iff_ne.mpr h1,
                beq_eq_false_iff_ne.mpr h2, beq_eq_false_iff_ne.mpr h3,
                beq_eq_false_iff_ne.mpr h4, beq_eq_false_iff_ne.mpr h5]
            · simp [beq_eq_false_iff_ne.mpr h1, beq_eq_false_iff_ne.mpr h2,
                beq_eq_false_iff_ne.mpr h3, beq_eq_false_iff_ne.mpr h4,
                beq_eq_false_iff_ne.mpr h5, beq_eq_false_iff_ne.mpr h6,
                h1, h2, h3, h4, h5, h6]

theorem supportsVerb_outside (r : Resource) (m : String) (h : m ∉ fixedVerbs) :
    supportsVerb r m = false := by
  rw [supportsVerb]
  have h1 : m ≠ GET := fun he => h (by rw [he, fixedVerbs]; simp)
  have h2 : m ≠ POST := fun he => h (by rw [he, fixedVerbs]; simp)
  have h3 : m ≠ PUT := fun he => h (by rw [he, fixedVerbs]; simp)
  have h4 : m ≠ DELETE := fun he => h (by rw [he, fixedVerbs]; simp)
  have h5 : m ≠ HEAD := fun he => h (by rw [he, fixedVerbs]; simp)
  have h6 : m ≠ PATCH := fun he => h (by rw [he, fixedVerbs]; simp)
  simp [beq_eq_false_iff_ne.mpr h1, beq_eq_false_iff_ne.mpr h2,
    beq_eq_false_iff_ne.mpr h3, beq_eq_false_iff_ne.mpr h4,
    beq_eq_false_iff_ne.mpr h5, beq_eq_false_iff_ne.mpr h6]

theorem requestHandler_parse_fail (hasLogger : Bool) (r : Resource) (req : Request)
    (params : Params) (h : req.parseFormError = true) :
    requestHandler hasLogger r req params =
      { events := [.writeHeader 400]
        logs := logRequest hasLogger req 400 "request.ParseForm was nil"
        invoked := false } := by
  rw [requestHandler, if_pos h]

theorem requestHandler_no_handler (hasLogger : Bool) (r : Resource) (req : Request)
    (params : Params) (h1 : req.parseFormError = false)
    (h2 : resolveHandler r req.method = none) :
    requestHandler hasLogger r req params =
      { events := [.writeHeader 405]
        logs := logRequest hasLogger req 405 "Handler was nil"
        invoked := false } := by
  rw [requestHandler, if_neg (by simp [h1]), h2]

theorem requestHandler_success (hasLogger : Bool) (r : Resource) (req : Request)
    (params : Params) (ep : EntryPoint) (content : String)
    (h1 : req.parseFormError = false)
    (h2 : resolveHandler r req.method = some ep)
    (h3 : goMarshalIndent (ep req req.header params).data = .ok content) :
    requestHandler hasLogger r req params =
      { events := headerEvents (ep req req.header params).header ++
          [.writeHeader (ep req req.header params).code, .write content]
        logs := logRequest hasLogger req (ep req req.header params).code "OK"
        invoked := true } := by
  rw [requestHandler, if_neg (by simp [h1]), h2]
  simp only [h3]

theorem requestHandler_marshal_fail (hasLogger : Bool) (r : Resource) (req : Request)
    (params : Params) (ep : EntryPoint) (e : String)
    (h1 : req.parseFormError = false)
    (h2 : resolveHandler r req.method = some ep)
    (h3 : goMarshalIndent (ep req req.header params).data = .error e) :
    requestHandler hasLogger r req params =
      { events := [.writeHeader 500]
        logs := logRequest hasLogger req (ep req req.header params).code "OK" ++
          logRequest hasLogger req 500 ("err in json.MarshalIndent: " ++ e)
        invoked := true } := by
  rw [requestHandler, if_neg (by simp [h1]), h2]
  simp only [h3]

/-! ### Registration facts -/

theorem addResourceWithWrapperPath_spec (s : APIState) (r : Resource) (p : String)
    (hwf : s.muxInitialized = false → s.routes = []) :
    (addResourceWithWrapperPath s r p).routes =
      s.routes ++ (supportedVerbs r).map
        (fun v => { verb := v, path := p, handler := .wrapped (.base r) }) ∧
    ((addResourceWithWrapperPath s r p).muxInitialized = false →
      (addResourceWithWrapperPath s r p).routes = []) := by
  rw [addResourceWithWrapperPath, supportedVerbs]
  by_cases h : s.muxInitialized = true
  · by_cases hg : r.get.isSome <;> by_cases hp : r.post.isSome <;>
      by_cases hpu : r.put.isSome <;> by_cases hd : r.delete.isSome <;>
      by_cases hh : r.head.isSome <;> by_cases hpa : r.patch.isSome <;>
      simp [regRoute, muxOp, h, hg, hp, hpu, hd, hh, hpa]
  · have hf : s.muxInitialized = false := by simpa using h
    by_cases hg : r.get.isSome <;> by_cases hp : r.post.isSome <;>
      by_cases hpu : r.put.isSome <;> by_cases hd : r.delete.isSome <;>
      by_cases hh : r.head.isSome <;> by_cases hpa : r.patch.isSome <;>
      simp [regRoute, muxOp, hf, hg, hp, hpu, hd, hh, hpa, hwf hf]

theorem addResourceWithWrapper_cons (s : APIState) (r : Resource) (p : String)
    (ps : List String) :
    addResourceWithWrapper s r (p :: ps) =
      addResourceWithWrapper (addResourceWithWrapperPath s r p) r ps := rfl

theorem addResourceWithWrapper_routes (s : APIState) (r : Resource)
    (paths : List String) (hwf : s.muxInitialized = false → s.routes = []) :
    (addResourceWithWrapper s r paths).routes = s.routes ++ wrappedRoutes r paths := by
  induction paths generalizing s with
  | nil => simp [addResourceWithWrapper, wrappedRoutes]
  | cons p ps ih =>
    rw [addResourceWithWrapper_cons]
    obtain ⟨h1, h2⟩ := addResourceWithWrapperPath_spec s r p hwf
    rw [ih (addResourceWithWrapperPath s r p) h2, h1, wrappedRoutes,
      List.append_assoc]

theorem supportedVerbs_nodup (r : Resource) : (supportedVerbs r).Nodup := by
  rw [supportedVerbs]
  by_cases hg : r.get.isSome <;> by_cases hp : r.post.isSome <;>
    by_cases hpu : r.put.isSome <;> by_cases hd : r.delete.isSome <;>
    by_cases hh : r.head.isSome <;> by_cases hpa : r.patch.isSome <;>
    simp [hg, hp, hpu, hd, hh, hpa, GET, POST, PUT, DELETE, HEAD, PATCH]

theorem wrappedRoutes_handler (r : Resource) (paths : List String) :
    ∀ e ∈ wrappedRoutes r paths, e.handler = .wrapped (.base r) := by
  induction paths with
  | nil => intro e he; simp [wrappedRoutes] at he
  | cons p ps ih =>
    intro e he
    rw [wrappedRoutes] at he
    rcases List.mem_append.mp he with h | h
    · obtain ⟨v, _, rfl⟩ := List.mem_map.mp h
      rfl
    · exact ih e h

theorem wrappedRoutes_block_countP (r : Resource) (v p q : String)
    (hv : v ∈ supportedVerbs r) :
    (((supportedVerbs r).map
        (fun v' => ({ verb := v', path := q, handler := .wrapped (.base r) } : RouteEntry))).countP
      (routeMatches v p)) = if q = p then 1 else 0 := by
  rw [List.countP_map]
  split
  · next hqp =>
    rw [hqp]
    have : ((routeMatches v p) ∘
        (fun v' => ({ verb := v', path := p, handler := .wrapped (.base r) } : RouteEntry))) =
        (fun v' => v' == v) := by
      funext v'
      simp [routeMatches, Function.comp]
    rw [this]
    rw [show (supportedVerbs r).countP (fun v' => v' == v) =
      (supportedVerbs r).count v from rfl]
    exact List.count_eq_one_of_mem (supportedVerbs_nodup r) hv
  · next hqp =>
    rw [List.countP_eq_zero]
    intro v' _
    simp [routeMatches, Function.comp]
    intro _
    exact fun h => absurd h hqp

theorem wrappedRoutes_countP_zero (r : Resource) (v p : String) (ps : List String)
    (hnp : p ∉ ps) :
    (wrappedRoutes r ps).countP (routeMatches v p) = 0 := by
  induction ps with
  | nil => rfl
  | cons q ps ih =>
    rw [wrappedRoutes, List.countP_append]
    have hq : q ≠ p := fun h => hnp (by rw [← h]; simp)
    have h1 : ((supportedVerbs r).map
        (fun v' => ({ verb := v', path := q, handler := .wrapped (.base r) } : RouteEntry))).countP
        (routeMatches v p) = 0 := by
      rw [List.countP_eq_zero]
      intro e he
      obtain ⟨v', _, rfl⟩ := List.mem_map.mp he
      simp [routeMatches]
      intro _
      exact fun h => absurd h hq
    rw [h1, ih (fun h => hnp (List.mem_cons_of_mem _ h))]

theorem wrappedRoutes_countP_one (r : Resource) (v p : String) (paths : List String)
    (hnodup : paths.Nodup) (hp : p ∈ paths) (hv : v ∈ supportedVerbs r) :
    (wrappedRoutes r paths).countP (routeMatches v p) = 1 := by
  induction paths with
  | nil => simp at hp
  | cons q ps ih =>
    rw [wrappedRoutes, List.countP_append]
    rcases List.mem_cons.mp hp with rfl | hp'
    · rw [wrappedRoutes_block_countP r v p p hv, if_pos rfl]
      rw [wrappedRoutes_countP_zero r v p ps (List.nodup_cons.mp hnodup).1]
    · have hq : q ≠ p := fun h => (List.nodup_cons.mp hnodup).1 (h ▸ hp')
      rw [wrappedRoutes_block_countP r v p q hv, if_neg hq]
      rw [ih (List.nodup_cons.mp hnodup).2 hp']

/-! ### Header merge facts -/

theorem headerEvents_filter_nil (h : Header) (n : String)
    (hn : n ∉ h.map Prod.fst) :
    (headerEvents h).filter (isAddOf n) = [] := by
  induction h with
  | nil => rfl
  | cons e t ih =>
    obtain ⟨m, ws⟩ := e
    have hm : m ≠ n := by
      intro he
      exact hn (by rw [← he]; simp)
    rw [headerEvents, List.filter_append]
    have h1 : (ws.map (RWEvent.addHeader m)).filter (isAddOf n) = [] := by
      rw [List.filter_eq_nil_iff]
      intro e he
      obtain ⟨w, _, rfl⟩ := List.mem_map.mp he
      simp [isAddOf, hm]
    rw [h1, ih (fun hmem => hn (by simp at hmem ⊢; exact Or.inr hmem))]
    rfl

theorem headerEvents_filter (h : Header) (n : String) (vs : List String)
    (hnodup : (h.map Prod.fst).Nodup) (hmem : (n, vs) ∈ h) :
    (headerEvents h).filter (isAddOf n) = vs.map (RWEvent.addHeader n) := by
  induction h with
  | nil => simp at hmem
  | cons e t ih =>
    obtain ⟨m, ws⟩ := e
    rw [headerEvents, List.filter_append]
    rcases List.mem_cons.mp hmem with heq | hmem'
    · obtain ⟨rfl, rfl⟩ := Prod.mk.injEq .. ▸ heq
      have h1 : (vs.map (RWEvent.addHeader n)).filter (isAddOf n) =
          vs.map (RWEvent.addHeader n) := by
        rw [List.filter_eq_self]
        intro e he
        obtain ⟨w, _, rfl⟩ := List.mem_map.mp he
        simp [isAddOf]
      have h2 : n ∉ t.map Prod.fst := by
        rw [List.map_cons] at hnodup
        exact (List.nodup_cons.mp hnodup).1
      rw [h1, headerEvents_filter_nil t n h2, List.append_nil]
    · have hm : m ≠ n := by
        intro he
        rw [List.map_cons] at hnodup
        have hkeys := (List.nodup_cons.mp hnodup).1
        apply hkeys
        rw [he]
        exact List.mem_map.mpr ⟨(n, vs), hmem', rfl⟩
      have h1 : (ws.map (RWEvent.addHeader m)).filter (isAddOf n) = [] := by
        rw [List.filter_eq_nil_iff]
        intro e he
        obtain ⟨w, _, rfl⟩ := List.mem_map.mp he
        simp [isAddOf, hm]
      rw [h1, List.nil_append]
      exact ih (by rw [List.map_cons] at hnodup
                   exact (List.nodup_cons.mp hnodup).2) hmem'

/-! ### Logging facts -/

theorem requestHandler_logger_indep (r : Resource) (req : Request) (params : Params) :
    (requestHandler false r req params).events =
      (requestHandler true r req params).events ∧
    (requestHandler false r req params).invoked =
      (requestHandler true r req params).invoked := by
  by_cases hpf : req.parseFormError = true
  · rw [requestHandler_parse_fail false r req params hpf,
      requestHandler_parse_fail true r req params hpf]
    exact ⟨rfl, rfl⟩
  · have hpf' : req.parseFormError = false := by simpa using hpf
    cases hres : resolveHandler r req.method with
    | none =>
      rw [requestHandler_no_handler false r req params hpf' hres,
        requestHandler_no_handler true r req params hpf' hres]
      exact ⟨rfl, rfl⟩
    | some ep =>
      cases hm : goMarshalIndent (ep req req.header params).data with
      | error e =>
        rw [requestHandler_marshal_fail false r req params ep e hpf' hres hm,
          requestHandler_marshal_fail true r req params ep e hpf' hres hm]
        exact ⟨rfl, rfl⟩
      | ok content =>
        rw [requestHandler_success false r req params ep content hpf' hres hm,
          requestHandler_success true r req params ep content hpf' hres hm]
        exact ⟨rfl, rfl⟩

theorem requestHandler_no_logger_logs (r : Resource) (req : Request) (params : Params) :
    (requestHandler false r req params).logs = [] := by
  by_cases hpf : req.parseFormError = true
  · rw [requestHandler_parse_fail false r req params hpf]
    rfl
  · have hpf' : req.parseFormError = false := by simpa using hpf
    cases hres : resolveHandler r req.method with
    | none =>
      rw [requestHandler_no_handler false r req params hpf' hres]
      rfl
    | some ep =>
      cases hm : goMarshalIndent (ep req req.header params).data with
      | error e =>
        rw [requestHandler_marshal_fail false r req params ep e hpf' hres hm]
        rfl
      | ok content =>
        rw [requestHandler_success false r req params ep content hpf' hres hm]
        rfl

theorem requestHandler_logs_form (r : Resource) (req : Request) (params : Params) :
    ∀ line ∈ (requestHandler true r req params).logs,
      ∃ code msg, line = requestLine req code msg := by
  intro line hline
  by_cases hpf : req.parseFormError = true
  · rw [requestHandler_parse_fail true r req params hpf] at hline
    simp [logRequest] at hline
    exact ⟨400, _, hline⟩
  · have hpf' : req.parseFormError = false := by simpa using hpf
    cases hres : resolveHandler r req.method with
    | none =>
      rw [requestHandler_no_handler true r req params hpf' hres] at hline
      simp [logRequest] at hline
      exact ⟨405, _, hline⟩
    | some ep =>
      cases hm : goMarshalIndent (ep req req.header params).data with
      | error e =>
        rw [requestHandler_marshal_fail true r req params ep e hpf' hres hm] at hline
        simp [logRequest] at hline
        rcases hline with h | h
        · exact ⟨(ep req req.header params).code, _, h⟩
        · exact ⟨500, _, h⟩
      | ok content =>
        rw [requestHandler_success true r req params ep content hpf' hres hm] at hline
        simp [logRequest] at hline
        exact ⟨(ep req req.header params).code, _, hline⟩

/-! ### Body extraction facts -/

theorem headerEvents_all_add (h : Header) :
    ∀ e ∈ headerEvents h, ∃ n v, e = .addHeader n v := by
  induction h with
  | nil => intro e he; simp [headerEvents] at he
  | cons p t ih =>
    obtain ⟨m, ws⟩ := p
    intro e he
    rw [headerEvents] at he
    rcases List.mem_append.mp he with h1 | h1
    · obtain ⟨w, _, rfl⟩ := List.mem_map.mp h1
      exact ⟨m, w, rfl⟩
    · exact ih e h1

theorem bodyOf_adds_append (evs l : List RWEvent)
    (h : ∀ e ∈ evs, ∃ n v, e = .addHeader n v) : bodyOf (evs ++ l) = bodyOf l := by
  induction evs with
  | nil => rfl
  | cons e t ih =>
    obtain ⟨n, v, rfl⟩ := h e (by simp)
    rw [List.cons_append]
    rw [show bodyOf (.addHeader n v :: (t ++ l)) = bodyOf (t ++ l) from rfl]
    exact ih (fun e he => h e (List.mem_cons_of_mem _ he))

theorem bodyOf_response (hdr : Header) (c : Int) (s : String) :
    bodyOf (headerEvents hdr ++ [.writeHeader c, .write s]) = s := by
  rw [bodyOf_adds_append (headerEvents hdr) _ (headerEvents_all_add hdr)]
  show s ++ "" = s
  exact String.append_empty s

/-! ### Claims -/

/-- C1: for every registered path and every handler implementing only a subset
of the six verbs, a request whose verb the handler does not implement — which
includes every verb string outside the fixed set GET/POST/PUT/DELETE/HEAD/PATCH,
as the second conjunct shows — is answered with HTTP 405 with the handler never
invoked. The theorem quantifies over every request reaching verb resolution (a
form-parse failure is answered 400 first, claim C3's subject): the 405 result
is the same value for every request body, so the outcome is independent of the
request's body content. -/
theorem c1_unsupported_verb_405 (hasLogger : Bool) (r : Resource) (req : Request)
    (params : Params) (hpf : req.parseFormError = false)
    (hsup : supportsVerb r req.method = false) :
    requestHandler hasLogger r req params =
      { events := [.writeHeader 405]
        logs := logRequest hasLogger req 405 "Handler was nil"
        invoked := false } ∧
    (∀ m, m ∉ fixedVerbs → supportsVerb r m = false) :=
  ⟨requestHandler_no_handler hasLogger r req params hpf
      ((supportsVerb_false_iff r req.method).mp hsup),
    fun m hm => supportsVerb_outside r m hm⟩

/-- C1 witness: a GET-only resource receiving a verb outside the fixed set
(`BREW`) yields exactly a 405 header write, one log line, and no handler
invocation. -/
theorem c1_witness :
    requestHandler true getOnlyResource (testRequest "BREW") [] =
      { events := [.writeHeader 405]
        logs := ["sleepy: [127.0.0.1:50000] BREW /items 405, Handler was nil"]
        invoked := false } := by
  have h := (c1_unsupported_verb_405 true getOnlyResource (testRequest "BREW") []
    rfl rfl).1
  rw [h]
  rfl

/-- C2: for every successfully dispatched request (form parse succeeded, the
verb resolved to an entry point, and the returned body value serialized), the
response body written to the response writer is exactly the handler-returned
value serialized as JSON with two-space indentation, and parsing that body back
as JSON returns precisely the handler-returned value. -/
theorem c2_response_body_json (hasLogger : Bool) (r : Resource) (req : Request)
    (params : Params) (ep : EntryPoint) (j : Json)
    (hpf : req.parseFormError = false)
    (hep : resolveHandler r req.method = some ep)
    (hdata : (ep req req.header params).data = .val j) :
    bodyOf (requestHandler hasLogger r req params).events = marshalIndentJson j ∧
    parseJson (marshalIndentJson j) = some j := by
  have h3 : goMarshalIndent (ep req req.header params).data =
      .ok (marshalIndentJson j) := by rw [hdata]; rfl
  constructor
  · rw [requestHandler_success hasLogger r req params ep (marshalIndentJson j)
      hpf hep h3]
    exact bodyOf_response (ep req req.header params).header
      (ep req req.header params).code (marshalIndentJson j)
  · exact parseJson_marshal j

/-- C2 witness: the repository's own test resource (`{"items": ["item1",
"item2"]}`) produces exactly the body text the repository's test asserts, and
parsing it back returns the handler's value. -/
theorem c2_witness :
    bodyOf (requestHandler false getOnlyResource (testRequest GET) []).events =
      "\x7b\n  \"items\": [\n    \"item1\",\n    \"item2\"\n  ]\n\x7d" ∧
    parseJson "\x7b\n  \"items\": [\n    \"item1\",\n    \"item2\"\n  ]\n\x7d" =
      some itemsValue := by
  obtain ⟨h1, h2⟩ := c2_response_body_json false getOnlyResource (testRequest GET) []
    itemsEntry itemsValue rfl rfl rfl
  refine ⟨?_, ?_⟩
  · rw [h1]; rfl
  · rw [show ("\x7b\n  \"items\": [\n    \"item1\",\n    \"item2\"\n  ]\n\x7d" : String) =
      marshalIndentJson itemsValue from rfl]
    exact h2

/-- C3: a request whose form data fails to parse is answered with HTTP 400 and
the handler is never invoked; and each dispatcher-injected error response — 400
on parse failure, 405 on unsupported verb, 500 on serialization failure — is a
bare status write whose body is empty. -/
theorem c3_error_responses (hasLogger : Bool) (r : Resource) (req : Request)
    (params : Params) :
    (req.parseFormError = true →
      requestHandler hasLogger r req params =
        { events := [.writeHeader 400]
          logs := logRequest hasLogger req 400 "request.ParseForm was nil"
          invoked := false } ∧
      bodyOf (requestHandler hasLogger r req params).events = "") ∧
    (req.parseFormError = false → supportsVerb r req.method = false →
      (requestHandler hasLogger r req params).events = [.writeHeader 405] ∧
      bodyOf (requestHandler hasLogger r req params).events = "") ∧
    (∀ ep e, req.parseFormError = false → resolveHandler r req.method = some ep →
      goMarshalIndent (ep req req.header params).data = .error e →
      (requestHandler hasLogger r req params).events = [.writeHeader 500] ∧
      bodyOf (requestHandler hasLogger r req params).events = "") := by
  refine ⟨?_, ?_, ?_⟩
  · intro h
    have heq := requestHandler_parse_fail hasLogger r req params h
    exact ⟨heq, by rw [heq]; rfl⟩
  · intro h1 h2
    have heq := requestHandler_no_handler hasLogger r req params h1
      ((supportsVerb_false_iff r req.method).mp h2)
    exact ⟨by rw [heq], by rw [heq]; rfl⟩
  · intro ep e h1 h2 h3
    have heq := requestHandler_marshal_fail hasLogger r req params ep e h1 h2 h3
    exact ⟨by rw [heq], by rw [heq]; rfl⟩

/-- C3 witness: a request with failing form parse gets a bare 400 with empty
body and no handler call; an unimplemented verb gets a bare 405 with empty
body; an unserializable handler value gets a bare 500 with empty body. -/
theorem c3_witness :
    (requestHandler true getOnlyResource badFormRequest [] =
      { events := [.writeHeader 400]
        logs := ["sleepy: [127.0.0.1:50000] GET /items 400, request.ParseForm was nil"]
        invoked := false } ∧
      bodyOf (requestHandler true getOnlyResource badFormRequest []).events = "") ∧
    ((requestHandler true getOnlyResource (testRequest POST) []).events =
        [.writeHeader 405] ∧
      bodyOf (requestHandler true getOnlyResource (testRequest POST) []).events = "") ∧
    ((requestHandler true badDataResource (testRequest GET) []).events =
        [.writeHeader 500] ∧
      bodyOf (requestHandler true badDataResource (testRequest GET) []).events = "") := by
  refine ⟨?_, ?_, ?_⟩
  · obtain ⟨h1, h2⟩ := (c3_error_responses true getOnlyResource badFormRequest []).1 rfl
    exact ⟨by rw [h1]; rfl, h2⟩
  · exact (c3_error_responses true getOnlyResource (testRequest POST) []).2.1 rfl rfl
  · exact (c3_error_responses true badDataResource (testRequest GET) []).2.2
      badDataEntry "json: unsupported type: chan int" rfl rfl rfl

/-- C4: on a successful dispatch, the response-writer event trace is exactly
the header-merge loop's `Add` events — one per handler-supplied header value, in
the order supplied — followed by the status write and the body write, so every
header value lands in the response before the status code and body; and for any
header name, if the handler's header keys are distinct (as Go map keys are),
the `Add` events for that name are exactly its value list in supplied order,
with no deduplication. -/
theorem c4_header_merge (hasLogger : Bool) (r : Resource) (req : Request)
    (params : Params) (ep : EntryPoint) (content : String)
    (hpf : req.parseFormError = false)
    (hep : resolveHandler r req.method = some ep)
    (hok : goMarshalIndent (ep req req.header params).data = .ok content) :
    (requestHandler hasLogger r req params).events =
      headerEvents (ep req req.header params).header ++
        [.writeHeader (ep req req.header params).code, .write content] ∧
    (∀ n vs, ((ep req req.header params).header.map Prod.fst).Nodup →
      (n, vs) ∈ (ep req req.header params).header →
      ((requestHandler hasLogger r req params).events.filter (isAddOf n)) =
        vs.map (RWEvent.addHeader n)) := by
  have heq := requestHandler_success hasLogger r req params ep content hpf hep hok
  refine ⟨by rw [heq], ?_⟩
  intro n vs hnodup hmem
  rw [heq]
  show ((headerEvents (ep req req.header params).header ++
    [RWEvent.writeHeader (ep req req.header params).code,
      RWEvent.write content]).filter
      (isAddOf n)) = vs.map (RWEvent.addHeader n)
  rw [List.filter_append, headerEvents_filter (ep req req.header params).header
    n vs hnodup hmem]
  rw [show ([RWEvent.writeHeader (ep req req.header params).code,
    RWEvent.write content].filter (isAddOf n)) = [] from rfl]
  rw [List.append_nil]

/-- C4 witness: a handler returning three values under one header name, with a
repeated value, produces three `Add` events in supplied order (no
deduplication), then the status write, then the body write. -/
theorem c4_witness :
    (requestHandler false headerResource (testRequest GET) []).events =
      [.addHeader "X-Tag" "a", .addHeader "X-Tag" "b", .addHeader "X-Tag" "a",
        .writeHeader 201, .write "null"] ∧
    ((requestHandler false headerResource (testRequest GET) []).events.filter
        (isAddOf "X-Tag")) =
      ["a", "b", "a"].map (RWEvent.addHeader "X-Tag") := by
  obtain ⟨h1, h2⟩ := c4_header_merge false headerResource (testRequest GET) []
    headerEntry "null" rfl rfl rfl
  refine ⟨by rw [h1]; rfl, ?_⟩
  exact h2 "X-Tag" ["a", "b", "a"] (by decide) (by simp [headerEntry])

/-- C5: once an API is bound to a router — the first `Mux()` call, a successful
`SetMux`, and route registration (which calls `Mux()`) all set the binding flag,
as the last three conjuncts show — every later `SetMux` call returns the error
and leaves the state (router identity and route table included) unchanged, and
every later `Mux()` call returns the same bound router with the state
unchanged. -/
theorem c5_router_immutable (s : APIState) (hinit : s.muxInitialized = true) :
    (∀ m rs, setMux s m rs =
      (.error "You cannot set a muxer when already initialized.", s)) ∧
    muxOp s = (s.mux, s) ∧
    ((muxOp newAPI).2).muxInitialized = true ∧
    (∀ s' m rs, s'.muxInitialized = false →
      ((setMux s' m rs).2).muxInitialized = true) ∧
    (∀ s' v p hd, ((regRoute s' v p hd) : APIState).muxInitialized = true) := by
  refine ⟨?_, ?_, rfl, ?_, ?_⟩
  · intro m rs
    rw [setMux, if_pos hinit]
  · rw [muxOp, if_pos hinit]
  · intro s' m rs h
    rw [setMux, if_neg (by simp [h])]
  · intro s' v p hd
    rw [regRoute, muxOp]
    by_cases h : s'.muxInitialized = true
    · rw [if_pos h]
      exact h
    · rw [if_neg h]

/-- C5 witness: on the state bound by the first `Mux()` call, `SetMux` returns
the error with the state unchanged and `Mux()` returns the same router. -/
theorem c5_witness :
    setMux ((muxOp newAPI).2) 7 [] =
      (.error "You cannot set a muxer when already initialized.",
        (muxOp newAPI).2) ∧
    muxOp ((muxOp newAPI).2) = (((muxOp newAPI).2).mux, (muxOp newAPI).2) := by
  obtain ⟨h1, h2, -⟩ := c5_router_immutable ((muxOp newAPI).2) rfl
  exact ⟨h1 7 [], h2⟩

/-- C6 counterexample: the claim "invoking Start before any route has been
registered fails synchronously and makes no network listen call" is false as
stated: after a bare `Mux()` call — which registers no route — the API has an
empty route table, yet `Start` proceeds all the way to the listen call. -/
theorem c6_counterexample :
    ((muxOp newAPI).2).routes = [] ∧
    (start defaultFlags ((muxOp newAPI).2) 3000).1 =
      .listen ⟨":3000", 20, 20, 32768⟩ := by
  exact ⟨rfl, rfl⟩

/-- C6 (amended): invoking `Start` before the router has been bound — no route
registered and no `Mux()`/`SetMux` call, i.e. `muxInitialized` still false —
fails synchronously with the configuration error and never reaches the listen
call; with a router bound but zero routes registered, `Start` proceeds to
listen. -/
theorem c6_start_unbound (flags : Flags) (s : APIState) (port : Int)
    (h : s.muxInitialized = false) :
    (start flags s port).1 =
      .configError "You must add at least one resource to this API." := by
  rw [start, if_neg (by simp [h])]

/-- C6 witness: a freshly created API (no registration at all) gets the
configuration error from `Start`. -/
theorem c6_witness :
    (start defaultFlags newAPI 3000).1 =
      .configError "You must add at least one resource to this API." :=
  c6_start_unbound defaultFlags newAPI 3000 rfl

/-- C7 counterexample: the claim "every request produces exactly one log line
of the form `[<remote-addr>] <verb> <path><raw-query> <status>, <outcome>`" is
false as stated: when body serialization fails the dispatcher logs twice —
first the handler's status with outcome OK, then the 500 with the failure
reason — and every line the logger receives carries the `sleepy: ` prefix the
`log` wrapper prepends. -/
theorem c7_counterexample :
    (requestHandler true badDataResource (testRequest GET) []).logs =
      ["sleepy: [127.0.0.1:50000] GET /items 200, OK",
       "sleepy: [127.0.0.1:50000] GET /items 500, err in json.MarshalIndent: json: unsupported type: chan int"] ∧
    (requestHandler true badDataResource (testRequest GET) []).logs.length ≠ 1 := by
  exact ⟨rfl, by decide⟩

/-- C7 (amended): with a logger configured, every emitted request-log line has
the form `sleepy: [<remote-addr>] <verb> <path><raw-query> <status>, <outcome>`;
each request produces exactly one such line — carrying the resulting status and
outcome note — except when body serialization fails, where two lines are
produced: the handler's status with outcome OK, then 500 with the failure
reason. With no logger configured, logging is a no-op and the request is
dispatched identically (same response events, same handler invocation). -/
theorem c7_request_logging (r : Resource) (req : Request) (params : Params) :
    ((requestHandler false r req params).logs = []) ∧
    ((requestHandler false r req params).events =
        (requestHandler true r req params).events ∧
      (requestHandler false r req params).invoked =
        (requestHandler true r req params).invoked) ∧
    (∀ line ∈ (requestHandler true r req params).logs,
      ∃ code msg, line = requestLine req code msg) ∧
    (req.parseFormError = true →
      (requestHandler true r req params).logs =
        [requestLine req 400 "request.ParseForm was nil"]) ∧
    (req.parseFormError = false → resolveHandler r req.method = none →
      (requestHandler true r req params).logs =
        [requestLine req 405 "Handler was nil"]) ∧
    (∀ ep content, req.parseFormError = false →
      resolveHandler r req.method = some ep →
      goMarshalIndent (ep req req.header params).data = .ok content →
      (requestHandler true r req params).logs =
        [requestLine req (ep req req.header params).code "OK"]) ∧
    (∀ ep e, req.parseFormError = false → resolveHandler r req.method = some ep →
      goMarshalIndent (ep req req.header params).data = .error e →
      (requestHandler true r req params).logs =
        [requestLine req (ep req req.header params).code "OK",
         requestLine req 500 ("err in json.MarshalIndent: " ++ e)]) := by
  refine ⟨requestHandler_no_logger_logs r req params,
    requestHandler_logger_indep r req params,
    requestHandler_logs_form r req params, ?_, ?_, ?_, ?_⟩
  · intro h
    rw [requestHandler_parse_fail true r req params h]
    rfl
  · intro h1 h2
    rw [requestHandler_no_handler true r req params h1 h2]
    rfl
  · intro ep content h1 h2 h3
    rw [requestHandler_success true r req params ep content h1 h2 h3]
    rfl
  · intro ep e h1 h2 h3
    rw [requestHandler_marshal_fail true r req params ep e h1 h2 h3]
    rfl

/-- C7 witness: with no logger a dispatched request emits no log line; with a
logger, a 405 request emits exactly its one formatted line. -/
theorem c7_witness :
    (requestHandler false getOnlyResource (testRequest GET) []).logs = [] ∧
    (requestHandler true getOnlyResource (testRequest POST) []).logs =
      [requestLine (testRequest POST) 405 "Handler was nil"] := by
  refine ⟨(c7_request_logging getOnlyResource (testRequest GET) []).1, ?_⟩
  exact (c7_request_logging getOnlyResource (testRequest POST) []).2.2.2.2.1 rfl rfl

/-- C8: the server `Start` builds ignores the parsed command-line timeout
flags: with `-httpReadTimeout=5 -httpWriteTimeout=7` in the flag state, the
listen call still receives the hard-coded 20-second read and write timeouts
(the 32KB header cap is as claimed, and the flags' registered default is 20),
contradicting the claim that the timeouts are taken from the command-line
overrides. -/
theorem c8_timeouts_hardcoded :
    (start { httpReadTimeout := 5, httpWriteTimeout := 7 } ((muxOp newAPI).2)
        3000).1 =
      .listen ⟨":3000", 20, 20, 32768⟩ ∧
    (start defaultFlags ((muxOp newAPI).2) 3000).1 =
      .listen ⟨":3000", 20, 20, 32768⟩ ∧
    defaultFlags.httpReadTimeout = 20 ∧ defaultFlags.httpWriteTimeout = 20 ∧
    (5 : Nat) ≠ 20 := by
  exact ⟨rfl, rfl, rfl, rfl, by decide⟩

/-- C9: `AddResourceWithWrapper` appends exactly one route per (path,
supported-verb) pair, each holding the wrapper applied exactly once (wrap count
one) to the base request handler; with distinct paths, each (path, verb) pair
occurs exactly once in the appended routes. The stored handlers are what
request dispatch reads, so the wrapper is never re-applied per request. -/
theorem c9_wrapper_once (s : APIState) (r : Resource) (paths : List String)
    (hwf : s.muxInitialized = false → s.routes = []) (hnodup : paths.Nodup) :
    (addResourceWithWrapper s r paths).routes = s.routes ++ wrappedRoutes r paths ∧
    (∀ e ∈ wrappedRoutes r paths,
      e.handler = .wrapped (.base r) ∧ wrapCount e.handler = 1) ∧
    (∀ p ∈ paths, ∀ v ∈ supportedVerbs r,
      (wrappedRoutes r paths).countP (routeMatches v p) = 1) := by
  refine ⟨addResourceWithWrapper_routes s r paths hwf, ?_, ?_⟩
  · intro e he
    have h := wrappedRoutes_handler r paths e he
    exact ⟨h, by rw [h]; rfl⟩
  · intro p hp v hv
    exact wrappedRoutes_countP_one r v p paths hnodup hp hv

/-- C9 witness: registering a Get+Post resource under two distinct paths yields
exactly the four once-wrapped routes, one per (path, supported-verb) pair. -/
theorem c9_witness :
    (addResourceWithWrapper newAPI getPostResource ["/a", "/b"]).routes =
      [{ verb := GET, path := "/a", handler := .wrapped (.base getPostResource) },
       { verb := POST, path := "/a", handler := .wrapped (.base getPostResource) },
       { verb := GET, path := "/b", handler := .wrapped (.base getPostResource) },
       { verb := POST, path := "/b", handler := .wrapped (.base getPostResource) }] ∧
    (wrappedRoutes getPostResource ["/a", "/b"]).countP
      (routeMatches POST "/b") = 1 := by
  obtain ⟨h1, -, h3⟩ := c9_wrapper_once newAPI getPostResource ["/a", "/b"]
    (fun _ => rfl) (by decide)
  refine ⟨by rw [h1]; rfl, ?_⟩
  exact h3 "/b" (by decide) POST (by decide)

/-- C10: when serializing the handler-returned body fails, the response is a
bare 500 — no handler-supplied header value is added and the handler-supplied
status code is not written (the event trace is exactly one 500 status write) —
even though the handler's entry point was already invoked. -/
theorem c10_marshal_fail_frame (hasLogger : Bool) (r : Resource) (req : Request)
    (params : Params) (ep : EntryPoint) (e : String)
    (h1 : req.parseFormError = false)
    (h2 : resolveHandler r req.method = some ep)
    (h3 : goMarshalIndent (ep req req.header params).data = .error e) :
    (requestHandler hasLogger r req params).events = [.writeHeader 500] ∧
    (requestHandler hasLogger r req params).invoked = true ∧
    (∀ n, ((requestHandler hasLogger r req params).events.filter (isAddOf n)) = []) ∧
    ((ep req req.header params).code ≠ 500 →
      RWEvent.writeHeader (ep req req.header params).code ∉
        (requestHandler hasLogger r req params).events) := by
  have heq := requestHandler_marshal_fail hasLogger r req params ep e h1 h2 h3
  refine ⟨by rw [heq], by rw [heq], fun n => by rw [heq]; rfl, ?_⟩
  intro hcode hmem
  rw [heq] at hmem
  simp only [List.mem_singleton] at hmem
  exact hcode (RWEvent.writeHeader.injEq .. ▸ hmem)

/-- C10 witness: the unserializable-body resource, whose handler returns status
200 with an extra-header-free result, produces exactly one 500 status write,
with the handler invoked and the 200 never written. -/
theorem c10_witness :
    (requestHandler true badDataResource (testRequest GET) []).events =
      [.writeHeader 500] ∧
    (requestHandler true badDataResource (testRequest GET) []).invoked = true ∧
    RWEvent.writeHeader 200 ∉
      (requestHandler true badDataResource (testRequest GET) []).events := by
  obtain ⟨h1, h2, -, h4⟩ := c10_marshal_fail_frame true badDataResource
    (testRequest GET) [] badDataEntry "json: unsupported type: chan int" rfl rfl rfl
  exact ⟨h1, h2, h4 (by decide)⟩

end Sleepy
